import Mathlib

/-!
Verification of the request/authentication/retry pipeline of the
`criteo-api-nodejs-client` library.

The development shallowly embeds the core of the client
(`checkAuthentication`, `authenticate`/`criteoApiRequest`,
`executeRequest`, `decideWhetherToRequeue`, `resolveRequest`,
`rejectRequest`, `processAuth`, `process`, `parseJSON`, `parseResponse`,
`saveToFile`) as pure Lean functions.  The JavaScript promise chain is
modelled as a deterministic state-passing computation: the HTTP transport
is an environment mapping the index of each transport invocation to the
raw response (or a transport error), and a pipeline run returns the
settlement of the outer promise (`none` models a promise that never
settles), the final descriptor flags, and the final mutable state (token
store, authentication counter, transport trace, file writes, callback
invocation log).

`JSON.parse` / `JSON.stringify` are external JavaScript builtins; they are
modelled by an executable parser and serializer over an inductive `Json`
type covering null, booleans, integer numerals, escape-free strings,
arrays and objects.  The parser is proved to invert the serializer on
well-formed values, which is the round-trip property the JSON response
handler is claimed to enjoy.
-/

/-! ## Character and string utilities -/

/-- The double-quote character, written via its code point. -/
def quoteChar : Char := Char.ofNat 34

/-- The backslash character. -/
def backslashChar : Char := Char.ofNat 92

/-- The opening curly bracket. -/
def lcurly : Char := Char.ofNat 123

/-- The closing curly bracket. -/
def rcurly : Char := Char.ofNat 125

/-- JavaScript-style whitespace test for `String.prototype.trim` (the
common ASCII whitespace characters suffice for this model). -/
def wsChar (c : Char) : Bool :=
  c == Char.ofNat 32 || c == Char.ofNat 9 || c == Char.ofNat 10 || c == Char.ofNat 13

/-- Model of JavaScript `String.prototype.trim`: drop whitespace from both
ends. -/
def jsTrim (s : String) : String :=
  String.mk (((s.data.dropWhile wsChar).reverse.dropWhile wsChar).reverse)

/-- Whether `pat` is an initial segment of `s` (both as character lists). -/
def leadsWith : List Char → List Char → Bool
  | [], _ => true
  | _ :: _, [] => false
  | a :: as, b :: bs => a == b && leadsWith as bs

/-- Whether `pat` occurs as a contiguous run somewhere in `s`. -/
def hasSubList (pat : List Char) : List Char → Bool
  | [] => leadsWith pat []
  | c :: rest => leadsWith pat (c :: rest) || hasSubList pat rest

/-- Model of JavaScript `String.prototype.indexOf(pat) > -1`: substring
containment. -/
def containsSub (s pat : String) : Bool := hasSubList pat.data s.data

/-- Decimal digit test on a character, by code point. -/
def isDig (c : Char) : Bool := 48 ≤ c.toNat && c.toNat ≤ 57

/-- The digit character for `k < 10`. -/
def digitChar (k : Nat) : Char := Char.ofNat (48 + k)

/-- Numeric value of a digit character. -/
def digitVal (c : Char) : Nat := c.toNat - 48

/-- Fuel-indexed decimal rendering of a natural number; the fuel only
needs to dominate the number of digits (the wrapper `natChars` supplies
`n` itself). -/
def natCharsF : Nat → Nat → List Char
  | 0, n => [digitChar n]
  | fuel + 1, n =>
    if n < 10 then [digitChar n]
    else natCharsF fuel (n / 10) ++ [digitChar (n % 10)]

/-- Decimal character rendering of a natural number (the digits of `n`,
most significant first). -/
def natChars (n : Nat) : List Char := natCharsF n n

/-- Decimal character rendering of an integer. -/
def intChars (n : Int) : List Char :=
  if n < 0 then '-' :: natChars n.natAbs else natChars n.toNat

/-- Accumulate the value of a run of decimal digit characters. -/
def digitsToNat (ds : List Char) : Nat := ds.foldl (fun a c => 10 * a + digitVal c) 0

/-- Split off the leading run of decimal digits. -/
def takeDigits (cs : List Char) : List Char × List Char :=
  (cs.takeWhile isDig, cs.dropWhile isDig)

/-! ## The JSON value model -/

/-- Model of the JavaScript JSON values exchanged with the API: null,
booleans, integer numerals, strings, arrays and objects.  (Fractional
numbers and string escape sequences are outside the modelled fragment.) -/
inductive Json where
  | null : Json
  | bool (b : Bool) : Json
  | num (n : Int) : Json
  | str (s : String) : Json
  | arr (elems : List Json) : Json
  | obj (fields : List (String × Json)) : Json

/-- The characters `null`. -/
def nullChars : List Char := ['n', 'u', 'l', 'l']

/-- The characters `true`. -/
def trueChars : List Char := ['t', 'r', 'u', 'e']

/-- The characters `false`. -/
def falseChars : List Char := ['f', 'a', 'l', 's', 'e']

mutual

/-- Model of `JSON.stringify` on the modelled fragment, producing the
canonical character rendering (no added whitespace, strings emitted
verbatim between double quotes). -/
def stringifyChars : Json → List Char
  | Json.null => nullChars
  | Json.bool true => trueChars
  | Json.bool false => falseChars
  | Json.num n => intChars n
  | Json.str s => quoteChar :: s.data ++ [quoteChar]
  | Json.arr [] => ['[', ']']
  | Json.arr (v :: l) => '[' :: (stringifyChars v ++ stringifyItems l) ++ [']']
  | Json.obj [] => [lcurly, rcurly]
  | Json.obj (f :: l) => lcurly :: (memberChars f ++ stringifyMembers l) ++ [rcurly]
termination_by structural v => v

/-- Rendering of a single object member `"key":value`. -/
def memberChars : String × Json → List Char
  | (k, v) => quoteChar :: k.data ++ [quoteChar, ':'] ++ stringifyChars v
termination_by structural f => f

/-- Rendering of the remaining array elements, each preceded by a comma. -/
def stringifyItems : List Json → List Char
  | [] => []
  | v :: l => ',' :: stringifyChars v ++ stringifyItems l
termination_by structural l => l

/-- Rendering of the remaining object members, each preceded by a comma. -/
def stringifyMembers : List (String × Json) → List Char
  | [] => []
  | f :: l => ',' :: memberChars f ++ stringifyMembers l
termination_by structural l => l

end

/-- String rendering of a JSON value. -/
def stringify (v : Json) : String := String.mk (stringifyChars v)

/-- A string is well formed for the modelled fragment when it contains no
double quote and no backslash (so it serializes verbatim). -/
def strOk (s : String) : Bool :=
  s.data.all (fun c => !(c == quoteChar) && !(c == backslashChar))

mutual

/-- Well-formedness of a JSON value for the modelled fragment: every
string literal (value or key) is escape-free. -/
def jsonWF : Json → Bool
  | Json.null => true
  | Json.bool _ => true
  | Json.num _ => true
  | Json.str s => strOk s
  | Json.arr l => wfItems l
  | Json.obj l => wfMembers l
termination_by structural v => v

/-- Well-formedness of a list of array elements. -/
def wfItems : List Json → Bool
  | [] => true
  | v :: l => jsonWF v && wfItems l
termination_by structural l => l

/-- Well-formedness of a list of object members. -/
def wfMembers : List (String × Json) → Bool
  | [] => true
  | (k, v) :: l => strOk k && jsonWF v && wfMembers l
termination_by structural l => l

end

/-- Read a string body up to (and consuming) the closing quote. -/
def parseStrChars : List Char → Option (List Char × List Char)
  | [] => none
  | c :: rest =>
    if c == quoteChar then some ([], rest)
    else
      match parseStrChars rest with
      | some (s, r) => some (c :: s, r)
      | none => none

mutual

/-- Fuel-indexed recursive-descent parser modelling `JSON.parse` on the
modelled fragment: parse one value, returning it with the unconsumed
remainder. -/
def parseVal : Nat → List Char → Option (Json × List Char)
  | 0, _ => none
  | fuel + 1, cs =>
    if leadsWith nullChars cs then some (Json.null, cs.drop 4)
    else if leadsWith trueChars cs then some (Json.bool true, cs.drop 4)
    else if leadsWith falseChars cs then some (Json.bool false, cs.drop 5)
    else
      match cs with
      | [] => none
      | c :: rest =>
        if c == '-' then
          match takeDigits rest with
          | ([], _) => none
          | (d :: ds, r) => some (Json.num (-(digitsToNat (d :: ds) : Int)), r)
        else if c == quoteChar then
          match parseStrChars rest with
          | some (s, r) => some (Json.str (String.mk s), r)
          | none => none
        else if c == '[' then
          match rest with
          | [] => none
          | c2 :: r2 =>
            if c2 == ']' then some (Json.arr [], r2)
            else
              match parseItems fuel (c2 :: r2) with
              | some (l, r) => some (Json.arr l, r)
              | none => none
        else if c == lcurly then
          match rest with
          | [] => none
          | c2 :: r2 =>
            if c2 == rcurly then some (Json.obj [], r2)
            else
              match parseMembers fuel (c2 :: r2) with
              | some (l, r) => some (Json.obj l, r)
              | none => none
        else if isDig c then
          match takeDigits (c :: rest) with
          | (ds, r) => some (Json.num (digitsToNat ds : Int), r)
        else none

/-- Parse the elements of a non-empty array, consuming the closing
bracket. -/
def parseItems : Nat → List Char → Option (List Json × List Char)
  | 0, _ => none
  | fuel + 1, cs =>
    match parseVal fuel cs with
    | none => none
    | some (v, r) =>
      match r with
      | [] => none
      | c :: r2 =>
        if c == ',' then
          match parseItems fuel r2 with
          | some (l, r3) => some (v :: l, r3)
          | none => none
        else if c == ']' then some ([v], r2)
        else none

/-- Parse the members of a non-empty object, consuming the closing curly
bracket. -/
def parseMembers : Nat → List Char → Option (List (String × Json) × List Char)
  | 0, _ => none
  | fuel + 1, cs =>
    match cs with
    | [] => none
    | c :: rest =>
      if c == quoteChar then
        match parseStrChars rest with
        | none => none
        | some (k, r) =>
          match r with
          | ':' :: r2 =>
            match parseVal fuel r2 with
            | none => none
            | some (v, r3) =>
              match r3 with
              | [] => none
              | c3 :: r4 =>
                if c3 == ',' then
                  match parseMembers fuel r4 with
                  | some (l, r5) => some ((String.mk k, v) :: l, r5)
                  | none => none
                else if c3 == rcurly then some ([(String.mk k, v)], r4)
                else none
          | _ => none
      else none

end

/-- Model of `JSON.parse`: parse a whole string as a single JSON value,
failing on trailing garbage. -/
def jsonParse (s : String) : Option Json :=
  match parseVal (s.data.length + 1) s.data with
  | some (v, []) => some v
  | _ => none

/-! ## Repository data model -/

/-- A raw HTTP response as resolved by the transport layer (`http.js`
resolves `{ body, response }`; the pipeline reads `response.statusCode`
and `body`). -/
structure RawResp where
  statusCode : Nat
  body : String

/-- The errors produced by the client.  `jsonParseErr` abstracts the
`SyntaxError` text interpolated into `parseJSON`'s message. -/
inductive Err where
  | httpStatus (status : Nat) (body : String) : Err
  | jsonParseErr : Err
  | authErr : Err
  | transportErr (msg : String) : Err
deriving DecidableEq

/-- The message carried by each error, as built by the source (template
literals in `process`, `parseJSON`, `processAuth`; a transport error
carries its own text). -/
def errMessage : Err → String
  | Err.httpStatus status body =>
    "Bad Response From API: Status Code " ++ Nat.repr status ++ " | " ++ body
  | Err.jsonParseErr => "Error Parsing JSON Response: SyntaxError"
  | Err.authErr => "Error Retrieving Session Token from Authentication Response!"
  | Err.transportErr msg => msg

/-- Model of `err.toString().indexOf('401') > -1` in
`decideWhetherToRequeue`. -/
def contains401 (e : Err) : Bool := containsSub (errMessage e) "401"

/-- Whether the leading three characters match `2`, `0`, digit. -/
def startsWith20x : List Char → Bool
  | c1 :: c2 :: c3 :: _ => c1 == '2' && c2 == '0' && isDig c3
  | _ => false

/-- Whether `20` followed by a digit occurs anywhere in the character
list. -/
def hasMatch20x : List Char → Bool
  | [] => false
  | c :: rest => startsWith20x (c :: rest) || hasMatch20x rest

/-- Model of the status check in `process`:
`status.toString().match(/20[0-9]/) !== null` (an unanchored regex search
over the decimal rendering of the status code). -/
def statusAccepted (status : Nat) : Bool := hasMatch20x (Nat.repr status).data

/-- The JavaScript values with which the pipeline's promise can resolve:
a JSON value, a plain string, or `undefined`. -/
inductive JSVal where
  | jval (v : Json) : JSVal
  | str (s : String) : JSVal
  | undef : JSVal

/-- The value `processAuth` resolves with (`this.token` after the
assignment): the stored token, or `undefined` when the field was
absent. -/
def jsvalOfToken : Option Json → JSVal
  | none => JSVal.undef
  | some j => JSVal.jval j

/-- JavaScript truthiness of the token store (`undefined`, `''`, `0`,
`false` and `null` are falsy; objects and arrays are truthy). -/
def jsTruthy : Option Json → Bool
  | none => false
  | some Json.null => false
  | some (Json.bool b) => b
  | some (Json.num n) => n != 0
  | some (Json.str s) => s != ""
  | some (Json.arr _) => true
  | some (Json.obj _) => true

/-- First-match field lookup in an object member list. -/
def lookupField : List (String × Json) → String → Option Json
  | [], _ => none
  | (k0, v0) :: rest, k => if k0 == k then some v0 else lookupField rest k

/-- JavaScript property access `v.access_token` on a parsed JSON value:
objects yield the field (or `undefined`); primitives and arrays yield
`undefined`; access on `null` throws (handled separately by the
caller). -/
def jsGetField (v : Json) (k : String) : Option Json :=
  match v with
  | Json.obj fields => lookupField fields k
  | _ => none

/-- The response handler attached to a request descriptor: `processAuth`,
`processJSON`, `processResponse`, or `processFile filepath`. -/
inductive HandlerKind where
  | auth : HandlerKind
  | json : HandlerKind
  | raw : HandlerKind
  | file (filepath : String) : HandlerKind
deriving DecidableEq

/-- A request descriptor as created by an endpoint method and mutated in
place by the pipeline.  The JavaScript callback function is modelled by
the flag `hasCallback` together with the callback invocation log in the
pipeline state; `retry` and `callbackExecuted` are the descriptor's
mutable flags (absent, i.e. `false`, on a fresh descriptor). -/
structure Descriptor where
  method : String
  path : String
  body : Option String := none
  handler : HandlerKind
  hasCallback : Bool := false
  retry : Bool := false
  callbackExecuted : Bool := false

/-- The mutable client state threaded through a pipeline run: the token
store `this.token`, the count of `authenticate()` invocations, the trace
of transport invocations (the path of each executed request, in order),
the file writes performed by `saveToFile`, and the log of callback
invocations. -/
structure St where
  token : Option Json
  authNs : Nat := 0
  execs : List String := []
  fileWrites : List (String × String) := []
  cbLog : List (Except Err JSVal) := []

/-- The environment of a run: the transport behaviour (the result of the
`n`-th transport invocation) and the credentials supplied at
construction. -/
structure Env where
  transport : Nat → Except String RawResp
  clientId : String := ""
  clientSecret : String := ""

/-! ## Response handlers -/

/-- Model of `toFormData`: key/value pairs joined as `k=v&...` with the
trailing ampersand sliced off. -/
def toFormData (l : List (String × String)) : String :=
  (String.join (l.map (fun p => p.1 ++ "=" ++ p.2 ++ "&"))).dropRight 1

/-- Source `parseJSON` (the parser passed to `process` by `processJSON`):
an empty body resolves with boolean `true`; otherwise the body is handed
to `JSON.parse`, a parse failure rejecting with the JSON parse error. -/
def parseJSON (body : String) : Except Err JSVal :=
  if body == "" then Except.ok (JSVal.jval (Json.bool true))
  else
    match jsonParse body with
    | some v => Except.ok (JSVal.jval v)
    | none => Except.error Err.jsonParseErr

/-- Source `parseResponse` (the parser used by `processResponse`): an
empty body resolves with boolean `true`, otherwise the body string is
returned unchanged. -/
def parseResponse (body : String) : Except Err JSVal :=
  if body == "" then Except.ok (JSVal.jval (Json.bool true))
  else Except.ok (JSVal.str body)

/-- Source `processAuth`: parse the response body as JSON (ignoring the
status code entirely), assign `this.token = response.access_token` and
resolve with the stored token.  The `catch` branch (rejecting with the
authentication error and leaving the token store untouched) is reached
exactly when `JSON.parse` throws, or when the property access throws
because the parsed value is `null`. -/
def processAuth (body : String) (token : Option Json) : Except Err JSVal × Option Json :=
  match jsonParse body with
  | none => (Except.error Err.authErr, token)
  | some Json.null => (Except.error Err.authErr, token)
  | some v =>
    (Except.ok (jsvalOfToken (jsGetField v "access_token")), jsGetField v "access_token")

/-- Source `process`: validate the status code against the `/20[0-9]/`
search and hand the trimmed body to the parser.  In the source a failed
status check calls `reject` and then still invokes the parser; since the
first settlement of the promise wins, the settled outcome is the status
error whenever the check fails (the parser's side effects, if any, are
accounted for separately by `processFile`). -/
def process (res : RawResp) (p : String → Except Err JSVal) : Except Err JSVal :=
  if statusAccepted res.statusCode then p (jsTrim res.body)
  else Except.error (Err.httpStatus res.statusCode res.body)

/-- Source `processJSON`. -/
def processJSON (res : RawResp) : Except Err JSVal := process res parseJSON

/-- Source `processResponse`. -/
def processResponse (res : RawResp) : Except Err JSVal := process res parseResponse

/-- The confirmation value `saveToFile` resolves with. -/
def saveToFileResult (filepath : String) : JSVal :=
  JSVal.str ("Results saved to " ++ filepath ++ ".")

/-- Source `processFile` (`process` with `saveToFile` as parser): the
settled outcome follows the status check, but `fs.writeFile` is invoked
on the trimmed body unconditionally, because `process` calls the parser
even after rejecting.  Disk writes are modelled as always succeeding and
are recorded as `(filepath, contents)` pairs. -/
def processFile (filepath : String) (res : RawResp) :
    Except Err JSVal × List (String × String) :=
  (if statusAccepted res.statusCode then Except.ok (saveToFileResult filepath)
   else Except.error (Err.httpStatus res.statusCode res.body),
   [(filepath, jsTrim res.body)])

/-- Dispatch a raw response through the descriptor's handler, updating
the state (token store for `processAuth`, file writes for
`processFile`). -/
def runHandler : HandlerKind → RawResp → St → Except Err JSVal × St
  | HandlerKind.auth, res, st =>
    match processAuth res.body st.token with
    | (out, tk) => (out, { st with token := tk })
  | HandlerKind.json, res, st => (processJSON res, st)
  | HandlerKind.raw, res, st => (processResponse res, st)
  | HandlerKind.file fp, res, st =>
    match processFile fp res with
    | (out, ws) => (out, { st with fileWrites := st.fileWrites ++ ws })

/-! ## The request pipeline -/

/-- Source `checkAuthentication` (the stage 1 gate): succeed when a
truthy token is stored and this is not a retry pass, or when the target
path is the authentication endpoint. -/
def checkAuthentication (token : Option Json) (d : Descriptor) : Bool :=
  (jsTruthy token && !d.retry) || d.path == "/oauth2/token"

/-- Source `decideWhetherToRequeue`'s requeue condition:
`err.toString().indexOf('401') > -1 && !r.retry`. -/
def decideWhetherToRequeue (e : Err) (d : Descriptor) : Bool :=
  contains401 e && !d.retry

/-- The status of an intermediate promise in the chain: resolved,
rejected, or never settling. -/
inductive StageRes (α : Type) where
  | pending : StageRes α
  | err (e : Err) : StageRes α
  | ok (a : α) : StageRes α

/-- Source `resolveRequest` / `rejectRequest` (stage 5): on resolution,
fire the callback with `(null, res)` if present and unfired, and always
resolve the outer promise; on rejection, fire the callback with the error
if present and unfired — in which case the outer promise is never
settled (the source's `else` branch) — and otherwise reject the outer
promise. -/
def settle (d : Descriptor) (st : St) :
    StageRes JSVal → Option (Except Err JSVal) × Descriptor × St
  | StageRes.pending => (none, d, st)
  | StageRes.ok v =>
    if d.hasCallback && !d.callbackExecuted then
      (some (Except.ok v), { d with callbackExecuted := true },
       { st with cbLog := st.cbLog ++ [Except.ok v] })
    else (some (Except.ok v), d, st)
  | StageRes.err e =>
    if d.hasCallback && !d.callbackExecuted then
      (none, { d with callbackExecuted := true },
       { st with cbLog := st.cbLog ++ [Except.error e] })
    else (some (Except.error e), d, st)

/-- Source `executeRequest` (stage 3): issue the request through the
transport (recording the executed path) and feed the raw response
through the descriptor's handler; a transport failure propagates
unchanged. -/
def executeRequest (d : Descriptor) (st : St) (env : Env) : Except Err JSVal × St :=
  match env.transport st.execs.length with
  | Except.error m =>
    (Except.error (Err.transportErr m), { st with execs := st.execs ++ [d.path] })
  | Except.ok res => runHandler d.handler res { st with execs := st.execs ++ [d.path] }

/-- Lift the settlement of the inner `authenticate` promise to the stage 2
result consumed by the rest of the chain. -/
def liftAuth : Option (Except Err JSVal) × Descriptor × St → StageRes Unit × St
  | (some (Except.ok _), _, st) => (StageRes.ok (), st)
  | (some (Except.error e), _, st) => (StageRes.err e, st)
  | (none, _, st) => (StageRes.pending, st)

/-- Stage 3 of the chain (`.then(executeRequest)`): run the request when
the previous stages resolved; a pending or rejected state passes
through. -/
def stage3 (d : Descriptor) (env : Env) : StageRes Unit × St → StageRes JSVal × St
  | (StageRes.ok _, st) =>
    match executeRequest d st env with
    | (Except.ok v, st2) => (StageRes.ok v, st2)
    | (Except.error e, st2) => (StageRes.err e, st2)
  | (StageRes.err e, st) => (StageRes.err e, st)
  | (StageRes.pending, st) => (StageRes.pending, st)

/-- Stage 5 without a preceding retry decision (used on a pass whose
descriptor is already marked retried, where `decideWhetherToRequeue`
always rejects). -/
def stage5 (d : Descriptor) : StageRes JSVal × St → Option (Except Err JSVal) × Descriptor × St
  | (StageRes.ok v, st) => settle d st (StageRes.ok v)
  | (StageRes.err e, st) => settle d st (StageRes.err e)
  | (StageRes.pending, st) => settle d st StageRes.pending

/-- Stages 4 and 5 of the chain (`.catch(decideWhetherToRequeue)` then
settlement): a rejection satisfying the requeue condition marks the
descriptor retried and resubmits it (`recRetry`), the resubmitted run's
settlement flowing into this chain's stage 5 with the descriptor flags
the resubmission left behind. -/
def stage45 (recRetry : Descriptor → St → Option (Except Err JSVal) × Descriptor × St)
    (d : Descriptor) : StageRes JSVal × St → Option (Except Err JSVal) × Descriptor × St
  | (StageRes.err e, st) =>
    if decideWhetherToRequeue e d then
      match recRetry { d with retry := true } st with
      | (some (Except.ok v), d1, st3) => settle d1 st3 (StageRes.ok v)
      | (some (Except.error e1), d1, st3) => settle d1 st3 (StageRes.err e1)
      | (none, d1, st3) => settle d1 st3 StageRes.pending
    else settle d st (StageRes.err e)
  | (StageRes.ok v, st) => settle d st (StageRes.ok v)
  | (StageRes.pending, st) => settle d st StageRes.pending

/-- The descriptor that `authenticate` submits to the pipeline: a POST of
the form-encoded credentials to `/oauth2/token`, handled by
`processAuth`, with no callback (the gate rejects with `undefined`). -/
def authDescriptor (env : Env) : Descriptor :=
  { method := "post"
    path := "/oauth2/token"
    body := some (toFormData
      [("client_id", env.clientId), ("client_secret", env.clientSecret),
       ("grant_type", "client_credentials")])
    handler := HandlerKind.auth }

/-- The body of `criteoApiRequest`: the five-stage promise chain
`checkAuthentication → (catch: authenticate) → executeRequest →
(catch: decideWhetherToRequeue) → resolveRequest/rejectRequest`, with the
two recursive submissions (`authenticate`'s inner pipeline and the retry
resubmission) abstracted as parameters. -/
def pipelineBody (recAuth : St → Option (Except Err JSVal) × Descriptor × St)
    (recRetry : Descriptor → St → Option (Except Err JSVal) × Descriptor × St)
    (d : Descriptor) (st : St) (env : Env) : Option (Except Err JSVal) × Descriptor × St :=
  stage45 recRetry d
    (stage3 d env
      (if checkAuthentication st.token d then (StageRes.ok (), st)
       else liftAuth (recAuth { st with authNs := st.authNs + 1 })))

/-- Source `criteoApiRequest`, fuel-indexed: the recursive submissions
are the inner pipeline run for the authentication descriptor and the
retry resubmission of the current descriptor.  Fuel exhaustion (which the
bounded-retry lemmas below show unreachable at the fuel used by `submit`)
is modelled as a pending promise. -/
def runPipeline : Nat → Descriptor → St → Env → Option (Except Err JSVal) × Descriptor × St
  | 0, d, st, _ => (none, d, st)
  | fuel + 1, d, st, env =>
    pipelineBody (fun st1 => runPipeline fuel (authDescriptor env) st1 env)
      (fun d1 st1 => runPipeline fuel d1 st1 env) d st env

/-- A pipeline submission as performed by an endpoint method; the fuel
`5` is enough for every reachable chain of nested submissions (outer run,
retry resubmission, and the authentication run with its own single
retry on each pass). -/
def submit (d : Descriptor) (st : St) (env : Env) :
    Option (Except Err JSVal) × Descriptor × St :=
  runPipeline 5 d st env

/-! ## Straight-line characterizations of the bounded recursion -/

/-- A pipeline pass for the already-retried authentication descriptor:
the gate passes (the path is the authentication endpoint), the request
executes, and the rejection-or-resolution settles without any further
requeue. -/
def authRetryRunSpec (env : Env) (st : St) : Option (Except Err JSVal) × Descriptor × St :=
  stage5 { authDescriptor env with retry := true }
    (stage3 { authDescriptor env with retry := true } env (StageRes.ok (), st))

/-- The settlement of `authenticate`'s inner pipeline run: the gate
passes by path, the token exchange executes through `processAuth`, and a
rejection whose text contains `401` resubmits the authentication
descriptor once. -/
def authRunSpec (env : Env) (st : St) : Option (Except Err JSVal) × Descriptor × St :=
  stage45 (fun _ st1 => authRetryRunSpec env st1) (authDescriptor env)
    (stage3 (authDescriptor env) env (StageRes.ok (), st))

/-- A pipeline pass for a descriptor already marked retried: the gate
fails unless the path is the authentication endpoint, forcing
re-authentication, and any failure is terminal. -/
def retryPassSpec (env : Env) (d : Descriptor) (st : St) :
    Option (Except Err JSVal) × Descriptor × St :=
  stage5 d
    (stage3 d env
      (if d.path == "/oauth2/token" then (StageRes.ok (), st)
       else liftAuth (authRunSpec env { st with authNs := st.authNs + 1 })))

/-- A full pipeline run for a fresh (un-retried) descriptor. -/
def fullRunSpec (env : Env) (d : Descriptor) (st : St) :
    Option (Except Err JSVal) × Descriptor × St :=
  stage45 (fun d1 st1 => retryPassSpec env d1 st1) d
    (stage3 d env
      (if jsTruthy st.token || d.path == "/oauth2/token" then (StageRes.ok (), st)
       else liftAuth (authRunSpec env { st with authNs := st.authNs + 1 })))

/-! ## Measures and auxiliary definitions for the round-trip proof -/

mutual

/-- Structural fuel measure of a JSON value for the parser. -/
def sizeJ : Json → Nat
  | Json.null => 1
  | Json.bool _ => 1
  | Json.num _ => 1
  | Json.str _ => 1
  | Json.arr l => 1 + sizeItems l
  | Json.obj l => 1 + sizeMembers l
termination_by structural v => v

/-- Fuel measure of a list of array elements. -/
def sizeItems : List Json → Nat
  | [] => 0
  | v :: l => 1 + sizeJ v + sizeItems l
termination_by structural l => l

/-- Fuel measure of a list of object members. -/
def sizeMembers : List (String × Json) → Nat
  | [] => 0
  | (_, v) :: l => 1 + sizeJ v + sizeMembers l
termination_by structural l => l

end

/-- A remainder is numeric-safe when it does not begin with a digit (so a
serialized numeral followed by it parses back exactly). -/
def restOkNum : List Char → Bool
  | [] => true
  | c :: _ => !isDig c

/-! ## Concrete sample runs -/

/-- A token-exchange response body carrying the token `T1`. -/
def authOkBody : String := stringify (Json.obj [("access_token", Json.str "T1")])

/-- A client state with the stored (stale) token `T0`. -/
def stT0 : St := { token := some (Json.str "T0") }

/-- A freshly constructed client state: the token store holds the empty
string. -/
def stFresh : St := { token := some (Json.str "") }

/-- A plain JSON-handled GET descriptor without a callback. -/
def dJson : Descriptor := { method := "get", path := "/accounts", handler := HandlerKind.json }

/-- The same descriptor with a callback supplied. -/
def dJsonCb : Descriptor := { dJson with hasCallback := true }

/-- Transport behaviour: first call returns 401, the token exchange
succeeds with `T1`, the replay returns 401 again. -/
def env401Twice : Env :=
  { transport := fun n =>
      match n with
      | 0 => Except.ok ⟨401, "x"⟩
      | 1 => Except.ok ⟨200, authOkBody⟩
      | 2 => Except.ok ⟨401, "y"⟩
      | _ => Except.error "unused" }

/-- Transport behaviour: first call returns status 500 with a body
containing the digits 401, the token exchange succeeds, the replay
succeeds with body `true`. -/
def env500With401Body : Env :=
  { transport := fun n =>
      match n with
      | 0 => Except.ok ⟨500, "x 401 x"⟩
      | 1 => Except.ok ⟨200, authOkBody⟩
      | 2 => Except.ok ⟨200, "true"⟩
      | _ => Except.error "unused" }

/-- Transport behaviour: every invocation fails with a connection error
whose text contains the digits 401. -/
def envConnRefused401 : Env :=
  { transport := fun _ => Except.error "connect ETIMEDOUT 0.0.0.0:401" }

/-- Transport behaviour: every invocation returns status 500 with body
`boom`. -/
def env500 : Env := { transport := fun _ => Except.ok ⟨500, "boom"⟩ }

/-- Transport behaviour: every invocation returns status 500 with an
unparseable (non-JSON) body. -/
def env500Html : Env := { transport := fun _ => Except.ok ⟨500, "Server Error"⟩ }

/-- A sample well-formed JSON value exercising objects, arrays, numbers,
strings and null. -/
def sampleJson : Json :=
  Json.obj [("a", Json.num 1), ("b", Json.arr [Json.null, Json.str "x", Json.num (-27)])]

/-! ## Basic lemmas: substrings, digits, decimal renderings -/

lemma leadsWith_self_append (pat r : List Char) : leadsWith pat (pat ++ r) = true := by
  induction pat with
  | nil => rfl
  | cons a as ih => simp [leadsWith, ih]

lemma hasSubList_mid (pat l r : List Char) : hasSubList pat (l ++ (pat ++ r)) = true := by
  induction l with
  | nil =>
    cases pat with
    | nil => cases r <;> simp [hasSubList, leadsWith]
    | cons p ps =>
      simp only [List.nil_append, hasSubList]
      have : leadsWith (p :: ps) (p :: ps ++ r) = true := leadsWith_self_append _ _
      simp only [List.cons_append] at this
      simp [this]
  | cons c l ih => simp [hasSubList, ih]

lemma contains401_httpStatus401 (b : String) :
    contains401 (Err.httpStatus 401 b) = true := by
  have h1 : Nat.repr 401 = "401" := rfl
  show containsSub ("Bad Response From API: Status Code " ++ Nat.repr 401 ++ " | " ++ b)
    "401" = true
  rw [h1]
  show hasSubList "401".data
    (("Bad Response From API: Status Code " ++ "401" ++ " | " ++ b)).data = true
  have h2 : ("Bad Response From API: Status Code " ++ "401" ++ " | " ++ b).data
      = "Bad Response From API: Status Code ".data ++ ("401".data ++ (" | " ++ b).data) := by
    simp [String.data_append]
  rw [h2]
  exact hasSubList_mid _ _ _

lemma isDig_digitChar {k : Nat} (h : k < 10) : isDig (digitChar k) = true := by
  interval_cases k <;> decide

lemma digitVal_digitChar {k : Nat} (h : k < 10) : digitVal (digitChar k) = k := by
  interval_cases k <;> decide

lemma isDig_toNat {c : Char} (h : isDig c = true) : 48 ≤ c.toNat ∧ c.toNat ≤ 57 := by
  simpa [isDig, Bool.and_eq_true, decide_eq_true_eq] using h

lemma natCharsF_irrel (n : Nat) : ∀ f f', n ≤ f → n ≤ f' → natCharsF f n = natCharsF f' n := by
  induction n using Nat.strong_induction_on with
  | _ n ih =>
    intro f f' hf hf'
    by_cases h : n < 10
    · cases f with
      | zero =>
        cases f' with
        | zero => rfl
        | succ g' => simp [natCharsF, h, show n = 0 by omega]
      | succ g =>
        cases f' with
        | zero => simp [natCharsF, h, show n = 0 by omega]
        | succ g' => simp [natCharsF, h]
    · cases f with
      | zero => omega
      | succ g =>
        cases f' with
        | zero => omega
        | succ g' =>
          have hlt : n / 10 < n := Nat.div_lt_self (by omega) (by omega)
          simp only [natCharsF, h, if_false]
          rw [ih (n / 10) hlt g g' (by omega) (by omega)]

lemma natChars_unfold (n : Nat) :
    natChars n = if n < 10 then [digitChar n] else natChars (n / 10) ++ [digitChar (n % 10)] := by
  by_cases h : n < 10
  · cases hn : n with
    | zero => simp [natChars, natCharsF, h]
    | succ m =>
      show natCharsF (m + 1) (m + 1) = _
      simp [natCharsF, hn ▸ h, h]
  · have hn10 : 10 ≤ n := by omega
    show natCharsF n n = _
    cases hn : n with
    | zero => omega
    | succ m =>
      simp only [natCharsF, hn ▸ h, if_false, h]
      rw [natCharsF_irrel ((m + 1) / 10) m ((m + 1) / 10) (by omega) (by omega)]
      rfl

lemma natChars_ne_nil (n : Nat) : natChars n ≠ [] := by
  rw [natChars_unfold]
  by_cases h : n < 10 <;> simp [h]

lemma natChars_all_dig (n : Nat) : ∀ c ∈ natChars n, isDig c = true := by
  induction n using Nat.strong_induction_on with
  | _ n ih =>
    rw [natChars_unfold]
    by_cases h : n < 10
    · simp only [h, if_true, List.mem_singleton]
      rintro c rfl
      exact isDig_digitChar h
    · simp only [h, if_false, List.mem_append, List.mem_singleton]
      rintro c (hc | rfl)
      · exact ih (n / 10) (Nat.div_lt_self (by omega) (by omega)) c hc
      · exact isDig_digitChar (Nat.mod_lt _ (by omega))

lemma digitsToNat_append_one (l : List Char) (c : Char) :
    digitsToNat (l ++ [c]) = 10 * digitsToNat l + digitVal c := by
  simp [digitsToNat, List.foldl_append]

lemma digitsToNat_natChars (n : Nat) : digitsToNat (natChars n) = n := by
  induction n using Nat.strong_induction_on with
  | _ n ih =>
    rw [natChars_unfold]
    by_cases h : n < 10
    · simp [h, digitsToNat, digitVal_digitChar h]
    · have hd : digitVal (digitChar (n % 10)) = n % 10 :=
        digitVal_digitChar (Nat.mod_lt _ (by omega))
      simp only [h, if_false, digitsToNat_append_one,
        ih (n / 10) (Nat.div_lt_self (by omega) (by omega)), hd]
      omega

lemma takeWhile_append_of_all {p : Char → Bool} (l r : List Char)
    (hl : ∀ c ∈ l, p c = true) (hr : ∀ c, r.head? = some c → p c = false) :
    (l ++ r).takeWhile p = l ∧ (l ++ r).dropWhile p = r := by
  induction l with
  | nil =>
    cases r with
    | nil => simp
    | cons c tl =>
      have := hr c rfl
      simp [List.takeWhile_cons, List.dropWhile_cons, this]
  | cons c l ih =>
    have hc : p c = true := hl c (by simp)
    have ih' := ih (fun d hd => hl d (by simp [hd]))
    simp [List.takeWhile_cons, List.dropWhile_cons, hc, ih'.1, ih'.2]

lemma takeDigits_natChars (n : Nat) (rest : List Char) (h : restOkNum rest = true) :
    takeDigits (natChars n ++ rest) = (natChars n, rest) := by
  have hr : ∀ c, rest.head? = some c → isDig c = false := by
    intro c hc
    cases rest with
    | nil => simp at hc
    | cons c0 tl =>
      simp only [List.head?] at hc
      cases hc
      simpa [restOkNum, Bool.not_eq_true'] using h
  have := takeWhile_append_of_all (p := isDig) (natChars n) rest (natChars_all_dig n) hr
  simp [takeDigits, this.1, this.2]

/-! ## Parser reduction lemmas (one per leading character shape) -/

lemma parseVal_null_red (fuel : Nat) (rest : List Char) :
    parseVal (fuel + 1) ('n' :: 'u' :: 'l' :: 'l' :: rest) = some (Json.null, rest) := rfl

lemma parseVal_true_red (fuel : Nat) (rest : List Char) :
    parseVal (fuel + 1) ('t' :: 'r' :: 'u' :: 'e' :: rest) = some (Json.bool true, rest) := rfl

lemma parseVal_false_red (fuel : Nat) (rest : List Char) :
    parseVal (fuel + 1) ('f' :: 'a' :: 'l' :: 's' :: 'e' :: rest) =
      some (Json.bool false, rest) := rfl

lemma parseVal_quote_red (fuel : Nat) (tl : List Char) :
    parseVal (fuel + 1) (quoteChar :: tl) =
      (match parseStrChars tl with
       | some (s, r) => some (Json.str (String.mk s), r)
       | none => none) := rfl

lemma parseVal_minus_red (fuel : Nat) (tl : List Char) :
    parseVal (fuel + 1) ('-' :: tl) =
      (match takeDigits tl with
       | ([], _) => none
       | (d :: ds, r) => some (Json.num (-(digitsToNat (d :: ds) : Int)), r)) := rfl

lemma parseVal_lbracket_red (fuel : Nat) (tl : List Char) :
    parseVal (fuel + 1) ('[' :: tl) =
      (match tl with
       | [] => none
       | c2 :: r2 =>
         if c2 == ']' then some (Json.arr [], r2)
         else
           match parseItems fuel (c2 :: r2) with
           | some (l, r) => some (Json.arr l, r)
           | none => none) := rfl

lemma parseVal_lcurly_red (fuel : Nat) (tl : List Char) :
    parseVal (fuel + 1) (lcurly :: tl) =
      (match tl with
       | [] => none
       | c2 :: r2 =>
         if c2 == rcurly then some (Json.obj [], r2)
         else
           match parseMembers fuel (c2 :: r2) with
           | some (l, r) => some (Json.obj l, r)
           | none => none) := rfl

lemma char_eq_false_of_toNat_ne {a b : Char} (h : a.toNat ≠ b.toNat) : (a == b) = false := by
  apply beq_eq_false_iff_ne.mpr
  intro hEq
  exact h (by rw [hEq])

lemma parseVal_digit_red (fuel : Nat) (c : Char) (tl : List Char) (h : isDig c = true) :
    parseVal (fuel + 1) (c :: tl) =
      some (Json.num (digitsToNat (takeDigits (c :: tl)).1 : Int), (takeDigits (c :: tl)).2) := by
  have hb := isDig_toNat h
  have hn : (('n' : Char) == c) = false :=
    char_eq_false_of_toNat_ne (by have : ('n' : Char).toNat = 110 := rfl; omega)
  have ht : (('t' : Char) == c) = false :=
    char_eq_false_of_toNat_ne (by have : ('t' : Char).toNat = 116 := rfl; omega)
  have hf : (('f' : Char) == c) = false :=
    char_eq_false_of_toNat_ne (by have : ('f' : Char).toNat = 102 := rfl; omega)
  have hm : (c == ('-' : Char)) = false :=
    char_eq_false_of_toNat_ne (by have : ('-' : Char).toNat = 45 := rfl; omega)
  have hq : (c == quoteChar) = false :=
    char_eq_false_of_toNat_ne (by have : quoteChar.toNat = 34 := rfl; omega)
  have hlb : (c == ('[' : Char)) = false :=
    char_eq_false_of_toNat_ne (by have : ('[' : Char).toNat = 91 := rfl; omega)
  have hlc : (c == lcurly) = false :=
    char_eq_false_of_toNat_ne (by have : lcurly.toNat = 123 := rfl; omega)
  simp only [parseVal, leadsWith, nullChars, trueChars, falseChars, hn, ht, hf,
    Bool.false_and, if_false, hm, hq, hlb, hlc, h, if_true]
  simp

lemma parseVal_num (fuel : Nat) (n : Int) (rest : List Char) (h : restOkNum rest = true) :
    parseVal (fuel + 1) (intChars n ++ rest) = some (Json.num n, rest) := by
  by_cases hn : n < 0
  · have hi : intChars n = '-' :: natChars n.natAbs := by simp [intChars, hn]
    rw [hi, List.cons_append, parseVal_minus_red, takeDigits_natChars _ _ h]
    obtain ⟨c, tl, hct⟩ := List.exists_cons_of_ne_nil (natChars_ne_nil n.natAbs)
    rw [hct]
    show some (Json.num (-(digitsToNat (c :: tl) : Int)), rest) = some (Json.num n, rest)
    rw [← hct, digitsToNat_natChars]
    have : -(n.natAbs : Int) = n := by omega
    rw [this]
  · have hi : intChars n = natChars n.toNat := by simp [intChars, hn]
    obtain ⟨c, tl, hct⟩ := List.exists_cons_of_ne_nil (natChars_ne_nil n.toNat)
    have hcd : isDig c = true := natChars_all_dig n.toNat c (by rw [hct]; simp)
    rw [hi, hct, List.cons_append, parseVal_digit_red fuel c _ hcd, ← List.cons_append, ← hct,
      takeDigits_natChars _ _ h]
    show some (Json.num (digitsToNat (natChars n.toNat) : Int), rest) = some (Json.num n, rest)
    rw [digitsToNat_natChars]
    have : (n.toNat : Int) = n := by omega
    rw [this]

lemma parseStrChars_append (s rest : List Char)
    (h : ∀ c ∈ s, (c == quoteChar) = false) :
    parseStrChars (s ++ quoteChar :: rest) = some (s, rest) := by
  induction s with
  | nil => simp [parseStrChars]
  | cons c s ih =>
    have hc : (c == quoteChar) = false := h c (by simp)
    have ih' := ih (fun d hd => h d (by simp [hd]))
    simp [parseStrChars, hc, ih']

lemma strOk_no_quote {s : String} (h : strOk s = true) :
    ∀ c ∈ s.data, (c == quoteChar) = false := by
  intro c hc
  have := (List.all_eq_true.mp h) c hc
  simp only [Bool.and_eq_true, Bool.not_eq_true'] at this
  exact this.1

lemma string_mk_data (s : String) : String.mk s.data = s := by
  cases s
  rfl

lemma isDig_facts {c : Char} (h : isDig c = true) :
    (c == ']') = false ∧ wsChar c = false := by
  have hb := isDig_toNat h
  refine ⟨char_eq_false_of_toNat_ne (by have : (']' : Char).toNat = 93 := rfl; omega), ?_⟩
  have h32 : (c == Char.ofNat 32) = false :=
    char_eq_false_of_toNat_ne (by have : (Char.ofNat 32).toNat = 32 := rfl; omega)
  have h9 : (c == Char.ofNat 9) = false :=
    char_eq_false_of_toNat_ne (by have : (Char.ofNat 9).toNat = 9 := rfl; omega)
  have h10 : (c == Char.ofNat 10) = false :=
    char_eq_false_of_toNat_ne (by have : (Char.ofNat 10).toNat = 10 := rfl; omega)
  have h13 : (c == Char.ofNat 13) = false :=
    char_eq_false_of_toNat_ne (by have : (Char.ofNat 13).toNat = 13 := rfl; omega)
  simp [wsChar, h32, h9, h10, h13]

lemma stringify_head_spec (v : Json) :
    ∃ c tl, stringifyChars v = c :: tl ∧ (c == ']') = false ∧ wsChar c = false := by
  cases v with
  | null => exact ⟨'n', _, rfl, by decide, by decide⟩
  | bool b =>
    cases b
    · exact ⟨'f', _, rfl, by decide, by decide⟩
    · exact ⟨'t', _, rfl, by decide, by decide⟩
  | num n =>
    by_cases hn : n < 0
    · exact ⟨'-', natChars n.natAbs, by simp [stringifyChars, intChars, hn], by decide, by decide⟩
    · obtain ⟨c, tl, hct⟩ := List.exists_cons_of_ne_nil (natChars_ne_nil n.toNat)
      have hcd : isDig c = true := natChars_all_dig n.toNat c (by rw [hct]; simp)
      have hf := isDig_facts hcd
      refine ⟨c, tl, ?_, hf.1, hf.2⟩
      show intChars n = c :: tl
      simp [intChars, hn, hct]
  | str s => exact ⟨quoteChar, _, rfl, by decide, by decide⟩
  | arr l =>
    cases l
    · exact ⟨'[', _, rfl, by decide, by decide⟩
    · exact ⟨'[', _, rfl, by decide, by decide⟩
  | obj l =>
    cases l
    · exact ⟨lcurly, _, rfl, by decide, by decide⟩
    · exact ⟨lcurly, _, rfl, by decide, by decide⟩

lemma natChars_reverse_head (n : Nat) :
    ∃ c tl, (natChars n).reverse = c :: tl ∧ isDig c = true := by
  rw [natChars_unfold]
  by_cases h : n < 10
  · exact ⟨digitChar n, [], by simp [h], isDig_digitChar h⟩
  · refine ⟨digitChar (n % 10), (natChars (n / 10)).reverse, ?_, isDig_digitChar (by omega)⟩
    simp [h]

lemma stringify_last_spec (v : Json) :
    ∃ c tl, (stringifyChars v).reverse = c :: tl ∧ wsChar c = false := by
  cases v with
  | null => exact ⟨'l', _, rfl, by decide⟩
  | bool b =>
    cases b
    · exact ⟨'e', _, rfl, by decide⟩
    · exact ⟨'e', _, rfl, by decide⟩
  | num n =>
    by_cases hn : n < 0
    · obtain ⟨c, tl, hct, hcd⟩ := natChars_reverse_head n.natAbs
      refine ⟨c, tl ++ ['-'], ?_, (isDig_facts hcd).2⟩
      simp [stringifyChars, intChars, hn, hct]
    · obtain ⟨c, tl, hct, hcd⟩ := natChars_reverse_head n.toNat
      exact ⟨c, tl, by simp [stringifyChars, intChars, hn, hct], (isDig_facts hcd).2⟩
  | str s =>
    refine ⟨quoteChar, s.data.reverse ++ [quoteChar], ?_, by decide⟩
    show (quoteChar :: s.data ++ [quoteChar]).reverse = _
    simp
  | arr l =>
    cases l
    · exact ⟨']', _, rfl, by decide⟩
    · rename_i v l
      refine ⟨']', (stringifyChars v ++ stringifyItems l).reverse ++ ['['], ?_, by decide⟩
      show ('[' :: (stringifyChars v ++ stringifyItems l) ++ [']']).reverse = _
      simp
  | obj l =>
    cases l
    · exact ⟨rcurly, _, rfl, by decide⟩
    · rename_i f l
      refine ⟨rcurly, (memberChars f ++ stringifyMembers l).reverse ++ [lcurly], ?_, by decide⟩
      show (lcurly :: (memberChars f ++ stringifyMembers l) ++ [rcurly]).reverse = _
      simp

lemma jsTrim_stringify (v : Json) : jsTrim (stringify v) = stringify v := by
  obtain ⟨c, tl, hct, _, hws⟩ := stringify_head_spec v
  obtain ⟨c2, tl2, hct2, hws2⟩ := stringify_last_spec v
  have h1 : (stringifyChars v).dropWhile wsChar = stringifyChars v := by
    rw [hct]
    simp [List.dropWhile_cons, hws]
  have h2 : (stringifyChars v).reverse.dropWhile wsChar = (stringifyChars v).reverse := by
    rw [hct2]
    simp [List.dropWhile_cons, hws2]
  show String.mk ((((stringifyChars v).dropWhile wsChar).reverse.dropWhile wsChar).reverse)
    = String.mk (stringifyChars v)
  rw [h1, h2, List.reverse_reverse]

lemma stringify_ne_empty (v : Json) : (stringify v == "") = false := by
  obtain ⟨c, tl, hct, _, _⟩ := stringify_head_spec v
  apply beq_eq_false_iff_ne.mpr
  intro hEq
  have : stringifyChars v = [] := by
    have := congrArg String.data hEq
    simpa [stringify] using this
  rw [hct] at this
  cases this

lemma parseVal_lbracket_cons (fuel : Nat) (c : Char) (tl : List Char)
    (h : (c == ']') = false) :
    parseVal (fuel + 1) ('[' :: c :: tl) =
      (match parseItems fuel (c :: tl) with
       | some (l, r) => some (Json.arr l, r)
       | none => none) := by
  rw [parseVal_lbracket_red]
  simp [h]

lemma parseVal_lcurly_cons (fuel : Nat) (c : Char) (tl : List Char)
    (h : (c == rcurly) = false) :
    parseVal (fuel + 1) (lcurly :: c :: tl) =
      (match parseMembers fuel (c :: tl) with
       | some (l, r) => some (Json.obj l, r)
       | none => none) := by
  rw [parseVal_lcurly_red]
  simp [h]

lemma restOk_items (l : List Json) (rest : List Char) :
    restOkNum (stringifyItems l ++ ']' :: rest) = true := by
  cases l with
  | nil => rfl
  | cons v l => rfl

lemma restOk_members (l : List (String × Json)) (rest : List Char) :
    restOkNum (stringifyMembers l ++ rcurly :: rest) = true := by
  cases l with
  | nil => rfl
  | cons f l => rfl

lemma sizeJ_pos (v : Json) : 1 ≤ sizeJ v := by
  cases v <;> simp [sizeJ]

theorem parseRound : ∀ fuel : Nat,
    (∀ v rest, jsonWF v = true → sizeJ v ≤ fuel → restOkNum rest = true →
      parseVal fuel (stringifyChars v ++ rest) = some (v, rest)) ∧
    (∀ x l rest, jsonWF x = true → wfItems l = true → 1 + sizeJ x + sizeItems l ≤ fuel →
      parseItems fuel (stringifyChars x ++ (stringifyItems l ++ (']' :: rest))) =
        some (x :: l, rest)) ∧
    (∀ k x l rest, strOk k = true → jsonWF x = true → wfMembers l = true →
      1 + sizeJ x + sizeMembers l ≤ fuel →
      parseMembers fuel (memberChars (k, x) ++ (stringifyMembers l ++ (rcurly :: rest))) =
        some ((k, x) :: l, rest)) := by
  intro fuel
  induction fuel with
  | zero =>
    refine ⟨?_, ?_, ?_⟩
    · intro v rest _ hsz _
      have := sizeJ_pos v
      omega
    · intro x l rest _ _ hsz
      omega
    · intro k x l rest _ _ _ hsz
      omega
  | succ fuel ih =>
    obtain ⟨ihV, ihI, ihM⟩ := ih
    refine ⟨?_, ?_, ?_⟩
    · intro v rest hwf hsz hrest
      cases v with
      | null => exact parseVal_null_red fuel rest
      | bool b =>
        cases b
        · exact parseVal_false_red fuel rest
        · exact parseVal_true_red fuel rest
      | num n => exact parseVal_num fuel n rest hrest
      | str s =>
        have hq := strOk_no_quote (by simpa [jsonWF] using hwf)
        have h1 : stringifyChars (Json.str s) ++ rest
            = quoteChar :: (s.data ++ quoteChar :: rest) := by
          show (quoteChar :: s.data ++ [quoteChar]) ++ rest = _
          simp
        rw [h1, parseVal_quote_red, parseStrChars_append s.data rest hq]
      | arr l =>
        cases l with
        | nil => rfl
        | cons x l2 =>
          obtain ⟨c, tl, hct, hcne, _⟩ := stringify_head_spec x
          obtain ⟨hx, hl2⟩ : jsonWF x = true ∧ wfItems l2 = true := by
            simpa [jsonWF, wfItems, Bool.and_eq_true] using hwf
          have hsz2 : 1 + sizeJ x + sizeItems l2 ≤ fuel := by
            have h1 : sizeJ (Json.arr (x :: l2)) = 1 + (1 + sizeJ x + sizeItems l2) := by
              simp [sizeJ, sizeItems]
            omega
          have harr : stringifyChars (Json.arr (x :: l2)) ++ rest
              = '[' :: (stringifyChars x ++ (stringifyItems l2 ++ (']' :: rest))) := by
            show ('[' :: (stringifyChars x ++ stringifyItems l2) ++ [']']) ++ rest = _
            simp
          have hcts : stringifyChars x ++ (stringifyItems l2 ++ (']' :: rest))
              = c :: (tl ++ (stringifyItems l2 ++ (']' :: rest))) := by
            rw [hct]
            rfl
          rw [harr, hcts, parseVal_lbracket_cons fuel c _ hcne, ← hcts,
            ihI x l2 rest hx hl2 hsz2]
      | obj l =>
        cases l with
        | nil => rfl
        | cons f l2 =>
          obtain ⟨k, x⟩ := f
          obtain ⟨hk, hx, hl2⟩ : strOk k = true ∧ jsonWF x = true ∧ wfMembers l2 = true := by
            simpa [jsonWF, wfMembers, Bool.and_eq_true, and_assoc] using hwf
          have hsz2 : 1 + sizeJ x + sizeMembers l2 ≤ fuel := by
            have h1 : sizeJ (Json.obj ((k, x) :: l2)) = 1 + (1 + sizeJ x + sizeMembers l2) := by
              simp [sizeJ, sizeMembers]
            omega
          have hobj : stringifyChars (Json.obj ((k, x) :: l2)) ++ rest
              = lcurly :: (memberChars (k, x) ++ (stringifyMembers l2 ++ (rcurly :: rest))) := by
            show (lcurly :: (memberChars (k, x) ++ stringifyMembers l2) ++ [rcurly]) ++ rest = _
            simp
          have hcts : memberChars (k, x) ++ (stringifyMembers l2 ++ (rcurly :: rest))
              = quoteChar :: ((k.data ++ [quoteChar, ':'] ++ stringifyChars x)
                  ++ (stringifyMembers l2 ++ (rcurly :: rest))) := by
            show (quoteChar :: k.data ++ [quoteChar, ':'] ++ stringifyChars x) ++ _ = _
            simp
          rw [hobj, hcts, parseVal_lcurly_cons fuel quoteChar _ (by decide), ← hcts,
            ihM k x l2 rest hk hx hl2 hsz2]
    · intro x l rest hx hl hsz
      cases l with
      | nil =>
        have h0 : stringifyItems ([] : List Json) ++ (']' :: rest) = ']' :: rest := by
          simp [stringifyItems]
        have hv : parseVal fuel (stringifyChars x ++ (stringifyItems ([] : List Json)
            ++ (']' :: rest))) = some (x, ']' :: rest) := by
          rw [h0]
          exact ihV x (']' :: rest) hx (by omega) rfl
        have hc1 : ((']' : Char) == ',') = false := by decide
        have hc2 : ((']' : Char) == ']') = true := by decide
        simp only [parseItems, hv, hc1, Bool.false_eq_true, if_false, hc2, if_true]
      | cons y l2 =>
        obtain ⟨hy, hl2⟩ : jsonWF y = true ∧ wfItems l2 = true := by
          simpa [wfItems, Bool.and_eq_true] using hl
        have hsz2 : 1 + sizeJ y + sizeItems l2 ≤ fuel := by
          have h1 : sizeItems (y :: l2) = 1 + sizeJ y + sizeItems l2 := by simp [sizeItems]
          omega
        have hR : stringifyItems (y :: l2) ++ (']' :: rest)
            = ',' :: (stringifyChars y ++ (stringifyItems l2 ++ (']' :: rest))) := by
          show (',' :: stringifyChars y ++ stringifyItems l2) ++ (']' :: rest) = _
          simp
        have hv : parseVal fuel (stringifyChars x ++ (stringifyItems (y :: l2)
            ++ (']' :: rest))) = some (x, ',' :: (stringifyChars y
              ++ (stringifyItems l2 ++ (']' :: rest)))) := by
          rw [← hR]
          exact ihV x _ hx (by omega) (restOk_items _ _)
        simp only [parseItems, hv, beq_self_eq_true, if_true,
          ihI y l2 rest hy hl2 hsz2]
    · intro k x l rest hk hx hl hsz
      have hkd := strOk_no_quote hk
      have hmem : memberChars (k, x) ++ (stringifyMembers l ++ (rcurly :: rest))
          = quoteChar :: (k.data ++ quoteChar :: ':'
              :: (stringifyChars x ++ (stringifyMembers l ++ (rcurly :: rest)))) := by
        show (quoteChar :: k.data ++ [quoteChar, ':'] ++ stringifyChars x) ++ _ = _
        simp
      have hs : parseStrChars (k.data ++ quoteChar :: ':'
          :: (stringifyChars x ++ (stringifyMembers l ++ (rcurly :: rest))))
          = some (k.data, ':' :: (stringifyChars x
              ++ (stringifyMembers l ++ (rcurly :: rest)))) :=
        parseStrChars_append k.data _ hkd
      have hv : parseVal fuel (stringifyChars x ++ (stringifyMembers l ++ (rcurly :: rest)))
          = some (x, stringifyMembers l ++ (rcurly :: rest)) :=
        ihV x _ hx (by omega) (restOk_members _ _)
      cases l with
      | nil =>
        have h0 : stringifyMembers ([] : List (String × Json)) ++ (rcurly :: rest)
            = rcurly :: rest := by
          simp [stringifyMembers]
        rw [h0] at hv
        have hc1 : (rcurly == ',') = false := by decide
        have hc2 : (rcurly == rcurly) = true := by decide
        rw [h0] at hmem hs
        rw [h0, hmem]
        simp only [parseMembers, beq_self_eq_true, if_true, hs, hv, hc1,
          Bool.false_eq_true, if_false, hc2, string_mk_data]
      | cons f l2 =>
        obtain ⟨k2, y⟩ := f
        obtain ⟨hk2, hy, hl2⟩ : strOk k2 = true ∧ jsonWF y = true ∧ wfMembers l2 = true := by
          simpa [wfMembers, Bool.and_eq_true, and_assoc] using hl
        have hsz2 : 1 + sizeJ y + sizeMembers l2 ≤ fuel := by
          have h1 : sizeMembers ((k2, y) :: l2) = 1 + sizeJ y + sizeMembers l2 := by
            simp [sizeMembers]
          omega
        have hR : stringifyMembers ((k2, y) :: l2) ++ (rcurly :: rest)
            = ',' :: (memberChars (k2, y) ++ (stringifyMembers l2 ++ (rcurly :: rest))) := by
          show (',' :: memberChars (k2, y) ++ stringifyMembers l2) ++ (rcurly :: rest) = _
          simp
        rw [hR] at hv hmem hs
        rw [hR, hmem]
        simp only [parseMembers, beq_self_eq_true, if_true, hs, hv,
          ihM k2 y l2 rest hk2 hy hl2 hsz2, string_mk_data]

lemma size_le_len : ∀ n : Nat,
    (∀ v, sizeJ v ≤ n → sizeJ v ≤ (stringifyChars v).length) ∧
    (∀ l, sizeItems l ≤ n → sizeItems l ≤ (stringifyItems l).length) ∧
    (∀ l, sizeMembers l ≤ n → sizeMembers l ≤ (stringifyMembers l).length) := by
  intro n
  induction n with
  | zero =>
    refine ⟨?_, ?_, ?_⟩
    · intro v h
      have := sizeJ_pos v
      omega
    · intro l h
      cases l with
      | nil => simp [sizeItems]
      | cons y l2 =>
        simp [sizeItems] at h
    · intro l h
      cases l with
      | nil => simp [sizeMembers]
      | cons f l2 =>
        obtain ⟨k, y⟩ := f
        simp [sizeMembers] at h
  | succ n ih =>
    obtain ⟨ihV, ihI, ihM⟩ := ih
    refine ⟨?_, ?_, ?_⟩
    · intro v hb
      cases v with
      | null => simp [sizeJ, stringifyChars, nullChars]
      | bool b => cases b <;> simp [sizeJ, stringifyChars, trueChars, falseChars]
      | num m =>
        have h1 : intChars m ≠ [] := by
          by_cases hm : m < 0 <;> simp [intChars, hm, natChars_ne_nil]
        have h2 : 0 < (intChars m).length := List.length_pos.mpr h1
        show sizeJ (Json.num m) ≤ (intChars m).length
        simp [sizeJ]
        omega
      | str s =>
        show sizeJ (Json.str s) ≤ (quoteChar :: s.data ++ [quoteChar]).length
        simp [sizeJ]
      | arr l =>
        cases l with
        | nil => simp [sizeJ, sizeItems, stringifyChars]
        | cons x l2 =>
          have hbx : sizeJ (Json.arr (x :: l2)) = 2 + sizeJ x + sizeItems l2 := by
            simp [sizeJ, sizeItems]
            omega
          have h1 : sizeJ x ≤ (stringifyChars x).length := ihV x (by omega)
          have h2 : sizeItems l2 ≤ (stringifyItems l2).length := ihI l2 (by omega)
          show sizeJ (Json.arr (x :: l2)) ≤
            ('[' :: (stringifyChars x ++ stringifyItems l2) ++ [']']).length
          simp [List.length_append]
          omega
      | obj l =>
        cases l with
        | nil => simp [sizeJ, sizeMembers, stringifyChars]
        | cons f l2 =>
          obtain ⟨k, x⟩ := f
          have hbx : sizeJ (Json.obj ((k, x) :: l2)) = 2 + sizeJ x + sizeMembers l2 := by
            simp [sizeJ, sizeMembers]
            omega
          have h1 : sizeJ x ≤ (stringifyChars x).length := ihV x (by omega)
          have h2 : sizeMembers l2 ≤ (stringifyMembers l2).length := ihM l2 (by omega)
          show sizeJ (Json.obj ((k, x) :: l2)) ≤
            (lcurly :: (memberChars (k, x) ++ stringifyMembers l2) ++ [rcurly]).length
          have h3 : (memberChars (k, x)).length = 3 + k.data.length + (stringifyChars x).length := by
            show (quoteChar :: k.data ++ [quoteChar, ':'] ++ stringifyChars x).length = _
            simp [List.length_append]
            omega
          simp [List.length_append, h3]
          omega
    · intro l hb
      cases l with
      | nil => simp [sizeItems]
      | cons y l2 =>
        have hby : sizeItems (y :: l2) = 1 + sizeJ y + sizeItems l2 := by simp [sizeItems]
        have h1 : sizeJ y ≤ (stringifyChars y).length := ihV y (by omega)
        have h2 : sizeItems l2 ≤ (stringifyItems l2).length := ihI l2 (by omega)
        show sizeItems (y :: l2) ≤ (',' :: stringifyChars y ++ stringifyItems l2).length
        simp [List.length_append]
        omega
    · intro l hb
      cases l with
      | nil => simp [sizeMembers]
      | cons f l2 =>
        obtain ⟨k, y⟩ := f
        have hby : sizeMembers ((k, y) :: l2) = 1 + sizeJ y + sizeMembers l2 := by
          simp [sizeMembers]
        have h1 : sizeJ y ≤ (stringifyChars y).length := ihV y (by omega)
        have h2 : sizeMembers l2 ≤ (stringifyMembers l2).length := ihM l2 (by omega)
        show sizeMembers ((k, y) :: l2) ≤ (',' :: memberChars (k, y) ++ stringifyMembers l2).length
        have h3 : (memberChars (k, y)).length = 3 + k.data.length + (stringifyChars y).length := by
          show (quoteChar :: k.data ++ [quoteChar, ':'] ++ stringifyChars y).length = _
          simp [List.length_append]
          omega
        simp [List.length_append, h3]
        omega

/-- The JSON round trip: on well-formed values of the modelled fragment,
the model of `JSON.parse` inverts the model of `JSON.stringify`. -/
theorem jsonParse_stringify (v : Json) (h : jsonWF v = true) :
    jsonParse (stringify v) = some v := by
  have hsz : sizeJ v ≤ (stringifyChars v).length := (size_le_len (sizeJ v)).1 v le_rfl
  have hp : parseVal ((stringifyChars v).length + 1) (stringifyChars v) = some (v, []) := by
    have := (parseRound ((stringifyChars v).length + 1)).1 v [] h (by omega) rfl
    simpa using this
  show (match parseVal ((stringifyChars v).length + 1) (stringifyChars v) with
        | some (w, []) => some w
        | _ => none) = some v
  rw [hp]

/-! ## Pipeline characterization lemmas -/

lemma stage45_noRequeue (rec : Descriptor → St → Option (Except Err JSVal) × Descriptor × St)
    (d : Descriptor) (x : StageRes JSVal × St) (h : d.retry = true) :
    stage45 rec d x = stage5 d x := by
  obtain ⟨r, st⟩ := x
  cases r with
  | pending => rfl
  | ok v => rfl
  | err e => simp [stage45, stage5, decideWhetherToRequeue, h]

lemma stage45_congr (rec1 rec2 : Descriptor → St → Option (Except Err JSVal) × Descriptor × St)
    (d : Descriptor) (x : StageRes JSVal × St)
    (h : ∀ st1, rec1 { d with retry := true } st1 = rec2 { d with retry := true } st1) :
    stage45 rec1 d x = stage45 rec2 d x := by
  obtain ⟨r, st⟩ := x
  cases r with
  | pending => rfl
  | ok v => rfl
  | err e =>
    simp only [stage45]
    by_cases hq : decideWhetherToRequeue e d
    · simp [hq, h st]
    · simp [hq]

lemma runPipeline_authRetry (n : Nat) (env : Env) (st : St) :
    runPipeline (n + 1) { authDescriptor env with retry := true } st env
      = authRetryRunSpec env st := by
  have hg : checkAuthentication st.token { authDescriptor env with retry := true } = true := by
    simp [checkAuthentication, authDescriptor]
  simp only [runPipeline, pipelineBody, hg, if_true]
  rw [stage45_noRequeue _ _ _ rfl]
  rfl

lemma runPipeline_auth (n : Nat) (env : Env) (st : St) :
    runPipeline (n + 2) (authDescriptor env) st env = authRunSpec env st := by
  have hg : checkAuthentication st.token (authDescriptor env) = true := by
    simp [checkAuthentication, authDescriptor]
  show runPipeline ((n + 1) + 1) (authDescriptor env) st env = authRunSpec env st
  rw [runPipeline]
  simp only [pipelineBody, hg, if_true]
  rw [stage45_congr _ (fun _ st1 => authRetryRunSpec env st1) _ _
    (fun st1 => runPipeline_authRetry n env st1)]
  rfl

lemma runPipeline_retryPass (n : Nat) (env : Env) (d : Descriptor) (st : St)
    (h : d.retry = true) :
    runPipeline (n + 3) d st env = retryPassSpec env d st := by
  have hg : checkAuthentication st.token d = (d.path == "/oauth2/token") := by
    simp [checkAuthentication, h]
  show runPipeline ((n + 2) + 1) d st env = retryPassSpec env d st
  rw [runPipeline]
  simp only [pipelineBody, hg]
  have hA : ∀ st1, runPipeline (n + 2) (authDescriptor env) st1 env = authRunSpec env st1 :=
    fun st1 => runPipeline_auth n env st1
  simp only [hA]
  rw [stage45_noRequeue _ _ _ h]
  rfl

lemma runPipeline_full (n : Nat) (env : Env) (d : Descriptor) (st : St)
    (h : d.retry = false) :
    runPipeline (n + 4) d st env = fullRunSpec env d st := by
  have hg : checkAuthentication st.token d
      = (jsTruthy st.token || d.path == "/oauth2/token") := by
    simp [checkAuthentication, h]
  show runPipeline ((n + 3) + 1) d st env = fullRunSpec env d st
  rw [runPipeline]
  simp only [pipelineBody, hg]
  have hA : ∀ st1, runPipeline (n + 3) (authDescriptor env) st1 env = authRunSpec env st1 :=
    fun st1 => runPipeline_auth (n + 1) env st1
  simp only [hA]
  rw [stage45_congr _ (fun d1 st1 => retryPassSpec env d1 st1) _ _
    (fun st1 => runPipeline_retryPass n env { d with retry := true } st1 rfl)]
  rfl

/-- The fuel used by `submit` realizes the straight-line semantics on any
fresh (un-retried) descriptor. -/
theorem submit_eq (env : Env) (d : Descriptor) (st : St) (h : d.retry = false) :
    submit d st env = fullRunSpec env d st :=
  runPipeline_full 1 env d st h

lemma settle_noCb (d : Descriptor) (st : St) (r : StageRes JSVal)
    (h : d.hasCallback = false) :
    settle d st r =
      ((match r with
        | StageRes.pending => none
        | StageRes.ok v => some (Except.ok v)
        | StageRes.err e => some (Except.error e)), d, st) := by
  cases r <;> simp [settle, h]

lemma runHandler_pres (h : HandlerKind) (res : RawResp) (st : St) :
    ((runHandler h res st).2.cbLog = st.cbLog) ∧
    ((runHandler h res st).2.authNs = st.authNs) ∧
    ((runHandler h res st).2.execs = st.execs) := by
  cases h <;> exact ⟨rfl, rfl, rfl⟩

lemma executeRequest_pres (d : Descriptor) (st : St) (env : Env) :
    ((executeRequest d st env).2.cbLog = st.cbLog) ∧
    ((executeRequest d st env).2.authNs = st.authNs) ∧
    ((executeRequest d st env).2.execs = st.execs ++ [d.path]) := by
  unfold executeRequest
  cases henv : env.transport st.execs.length with
  | error m => exact ⟨rfl, rfl, rfl⟩
  | ok res =>
    have h := runHandler_pres d.handler res { st with execs := st.execs ++ [d.path] }
    exact ⟨h.1, h.2.1, h.2.2⟩

lemma authRunSpec_eq (env : Env) (st : St) :
    authRunSpec env st =
      (match executeRequest (authDescriptor env) st env with
       | (Except.ok v, st1) => (some (Except.ok v), authDescriptor env, st1)
       | (Except.error e, st1) =>
         if contains401 e then
           match executeRequest { authDescriptor env with retry := true } st1 env with
           | (Except.ok v, st2) =>
             (some (Except.ok v), { authDescriptor env with retry := true }, st2)
           | (Except.error e2, st2) =>
             (some (Except.error e2), { authDescriptor env with retry := true }, st2)
         else (some (Except.error e), authDescriptor env, st1)) := by
  unfold authRunSpec authRetryRunSpec
  rcases hex : executeRequest (authDescriptor env) st env with ⟨out, st1⟩
  cases out with
  | ok v =>
    simp only [stage3, hex, stage45]
    rfl
  | error e =>
    simp only [stage3, hex, stage45, decideWhetherToRequeue]
    have hr : (authDescriptor env).retry = false := rfl
    by_cases h4 : contains401 e
    · simp only [h4, hr, Bool.true_and, Bool.not_false, if_true]
      rcases hex2 : executeRequest { authDescriptor env with retry := true } st1 env
        with ⟨out2, st2⟩
      cases out2 with
      | ok v =>
        simp only [stage3, hex2, stage5]
        rfl
      | error e2 =>
        simp only [stage3, hex2, stage5]
        rfl
    · simp only [h4, hr, Bool.false_and, Bool.false_eq_true, if_false]
      rfl

lemma authRunSpec_pres (env : Env) (st : St) :
    ((authRunSpec env st).1 ≠ none) ∧ ((authRunSpec env st).2.2.cbLog = st.cbLog) ∧
    ((authRunSpec env st).2.2.authNs = st.authNs) := by
  rw [authRunSpec_eq]
  have h1 := executeRequest_pres (authDescriptor env) st env
  rcases hex : executeRequest (authDescriptor env) st env with ⟨out, st1⟩
  rw [hex] at h1
  cases out with
  | ok v => exact ⟨by simp, h1.1, h1.2.1⟩
  | error e =>
    by_cases h4 : contains401 e
    · simp only [h4, if_true]
      have h2 := executeRequest_pres { authDescriptor env with retry := true } st1 env
      rcases hex2 : executeRequest { authDescriptor env with retry := true } st1 env
        with ⟨out2, st2⟩
      rw [hex2] at h2
      cases out2 with
      | ok v => exact ⟨by simp, by rw [h2.1, h1.1], by rw [h2.2.1, h1.2.1]⟩
      | error e2 => exact ⟨by simp, by rw [h2.1, h1.1], by rw [h2.2.1, h1.2.1]⟩
    · simp only [h4, if_false]
      exact ⟨by simp, h1.1, h1.2.1⟩

lemma settle_cb_ok (d : Descriptor) (st : St) (v : JSVal)
    (hcb : d.hasCallback = true) (hce : d.callbackExecuted = false) :
    settle d st (StageRes.ok v) =
      (some (Except.ok v), { d with callbackExecuted := true },
       { st with cbLog := st.cbLog ++ [Except.ok v] }) := by
  simp [settle, hcb, hce]

lemma settle_cb_err (d : Descriptor) (st : St) (e : Err)
    (hcb : d.hasCallback = true) (hce : d.callbackExecuted = false) :
    settle d st (StageRes.err e) =
      (none, { d with callbackExecuted := true },
       { st with cbLog := st.cbLog ++ [Except.error e] }) := by
  simp [settle, hcb, hce]

lemma settle_done (d : Descriptor) (st : St) (r : StageRes JSVal)
    (h : d.callbackExecuted = true) :
    settle d st r =
      ((match r with
        | StageRes.pending => none
        | StageRes.ok v => some (Except.ok v)
        | StageRes.err e => some (Except.error e)), d, st) := by
  cases r <;> simp [settle, h]

lemma retryPassSpec_cb (env : Env) (d : Descriptor) (st : St)
    (hcb : d.hasCallback = true) (hce : d.callbackExecuted = false) :
    ((retryPassSpec env d st).2.2.cbLog).length = st.cbLog.length + 1 ∧
    (retryPassSpec env d st).2.1.callbackExecuted = true := by
  unfold retryPassSpec
  by_cases hp : (d.path == "/oauth2/token") = true
  · rw [if_pos hp]
    rcases hex : executeRequest d st env with ⟨out, st1⟩
    have hpre := executeRequest_pres d st env
    rw [hex] at hpre
    cases out with
    | ok v =>
      have hc1 : st1.cbLog = st.cbLog := hpre.1
      simp only [stage3, hex, stage5, settle_cb_ok _ _ _ hcb hce]
      exact ⟨by simp [hc1], by simp⟩
    | error e =>
      have hc1 : st1.cbLog = st.cbLog := hpre.1
      simp only [stage3, hex, stage5, settle_cb_err _ _ _ hcb hce]
      exact ⟨by simp [hc1], by simp⟩
  · rw [if_neg hp]
    have hpres := authRunSpec_pres env { st with authNs := st.authNs + 1 }
    rcases hA : authRunSpec env { st with authNs := st.authNs + 1 } with ⟨o, dA, stA⟩
    rw [hA] at hpres
    cases o with
    | none => exact absurd rfl hpres.1
    | some r =>
      cases r with
      | ok v0 =>
        simp only [liftAuth]
        rcases hex : executeRequest d stA env with ⟨out, st1⟩
        have hpre := executeRequest_pres d stA env
        rw [hex] at hpre
        cases out with
        | ok v =>
          have hc : stA.cbLog = st.cbLog := hpres.2.1
          have hc1 : st1.cbLog = stA.cbLog := hpre.1
          simp only [stage3, hex, stage5, settle_cb_ok _ _ _ hcb hce]
          exact ⟨by simp [hc1, hc], by simp⟩
        | error e =>
          have hc : stA.cbLog = st.cbLog := hpres.2.1
          have hc1 : st1.cbLog = stA.cbLog := hpre.1
          simp only [stage3, hex, stage5, settle_cb_err _ _ _ hcb hce]
          exact ⟨by simp [hc1, hc], by simp⟩
      | error e =>
        have hc : stA.cbLog = st.cbLog := hpres.2.1
        simp only [liftAuth, stage3, stage5, settle_cb_err _ _ _ hcb hce]
        exact ⟨by simp [hc], by simp⟩

lemma stage45_retry_cb (env : Env) (e : Err) (d : Descriptor) (st1 : St)
    (hcb : d.hasCallback = true) (hce : d.callbackExecuted = false) :
    (((stage45 (fun d1 st2 => retryPassSpec env d1 st2) d
        (StageRes.err e, st1)).2.2.cbLog).length) = st1.cbLog.length + 1 := by
  simp only [stage45]
  by_cases hq : decideWhetherToRequeue e d = true
  · rw [if_pos hq]
    have hrp := retryPassSpec_cb env { d with retry := true } st1 hcb hce
    rcases hR : retryPassSpec env { d with retry := true } st1 with ⟨o, d1, st2⟩
    rw [hR] at hrp
    cases o with
    | none =>
      show (settle d1 st2 StageRes.pending).2.2.cbLog.length = st1.cbLog.length + 1
      simpa [settle] using hrp.1
    | some r =>
      cases r with
      | ok v =>
        show (settle d1 st2 (StageRes.ok v)).2.2.cbLog.length = st1.cbLog.length + 1
        rw [settle_done _ _ _ hrp.2]
        exact hrp.1
      | error e1 =>
        show (settle d1 st2 (StageRes.err e1)).2.2.cbLog.length = st1.cbLog.length + 1
        rw [settle_done _ _ _ hrp.2]
        exact hrp.1
  · rw [if_neg hq]
    rw [settle_cb_err _ _ _ hcb hce]
    simp

lemma settle_ok_fst (d : Descriptor) (st : St) (v : JSVal) :
    (settle d st (StageRes.ok v)).1 = some (Except.ok v) := by
  by_cases h : (d.hasCallback && !d.callbackExecuted) = true <;> simp [settle, h]

lemma executeRequest_retryFlag (d : Descriptor) (st : St) (env : Env) :
    executeRequest { d with retry := true } st env = executeRequest d st env := rfl

/-- Complete outcome characterization of a retry pass: a resolution always
carries an output of `executeRequest` for the descriptor (the handler
result), a pending outcome happens exactly by a callback absorbing the
error, and a rejection leaves the descriptor and the callback log
untouched and can only happen without a callback. -/
lemma retryPassSpec_outcomes (env : Env) (d : Descriptor) (st : St)
    (hce : d.callbackExecuted = false) :
    (∀ v, (retryPassSpec env d st).1 = some (Except.ok v) →
      ∃ stx, (executeRequest d stx env).1 = Except.ok v) ∧
    ((retryPassSpec env d st).1 = none →
      d.hasCallback = true ∧
      ∃ e, (retryPassSpec env d st).2.2.cbLog = st.cbLog ++ [Except.error e]) ∧
    (∀ e, (retryPassSpec env d st).1 = some (Except.error e) →
      d.hasCallback = false ∧ (retryPassSpec env d st).2.1 = d ∧
      (retryPassSpec env d st).2.2.cbLog = st.cbLog) := by
  unfold retryPassSpec
  by_cases hp : (d.path == "/oauth2/token") = true
  · rw [if_pos hp]
    rcases hex : executeRequest d st env with ⟨out, st1⟩
    have hpre := executeRequest_pres d st env
    rw [hex] at hpre
    have hc1 : st1.cbLog = st.cbLog := hpre.1
    cases out with
    | ok v =>
      simp only [stage3, hex, stage5]
      rw [settle_ok_fst]
      refine ⟨?_, ?_, ?_⟩
      · intro w hw
        have h2 : v = w := by simpa using hw
        subst h2
        exact ⟨st, by rw [hex]⟩
      · intro h
        exact Option.noConfusion h
      · intro e he
        simp at he
    | error e0 =>
      simp only [stage3, hex, stage5]
      by_cases hcb : d.hasCallback = true
      · rw [settle_cb_err _ _ _ hcb hce]
        refine ⟨?_, ?_, ?_⟩
        · intro w hw
          simp at hw
        · intro _
          exact ⟨hcb, e0, by simp [hc1]⟩
        · intro e he
          simp at he
      · have hcb' : d.hasCallback = false := by
          revert hcb
          cases d.hasCallback <;> simp
        have hs : settle d st1 (StageRes.err e0)
            = (some (Except.error e0), d, st1) := by
          simp [settle, hcb']
        rw [hs]
        refine ⟨?_, ?_, ?_⟩
        · intro w hw
          simp at hw
        · intro h
          simp at h
        · intro e he
          have h2 : e0 = e := by simpa using he
          subst h2
          exact ⟨hcb', rfl, hc1⟩
  · rw [if_neg hp]
    have hpres := authRunSpec_pres env { st with authNs := st.authNs + 1 }
    rcases hA : authRunSpec env { st with authNs := st.authNs + 1 } with ⟨o, dA, stA⟩
    rw [hA] at hpres
    have hcA : stA.cbLog = st.cbLog := hpres.2.1
    cases o with
    | none => exact absurd rfl hpres.1
    | some r =>
      cases r with
      | ok v0 =>
        simp only [liftAuth]
        rcases hex : executeRequest d stA env with ⟨out, st1⟩
        have hpre := executeRequest_pres d stA env
        rw [hex] at hpre
        have hc1 : st1.cbLog = st.cbLog := by rw [hpre.1, hcA]
        cases out with
        | ok v =>
          simp only [stage3, hex, stage5]
          rw [settle_ok_fst]
          refine ⟨?_, ?_, ?_⟩
          · intro w hw
            have h2 : v = w := by simpa using hw
            subst h2
            exact ⟨stA, by rw [hex]⟩
          · intro h
            exact Option.noConfusion h
          · intro e he
            simp at he
        | error e0 =>
          simp only [stage3, hex, stage5]
          by_cases hcb : d.hasCallback = true
          · rw [settle_cb_err _ _ _ hcb hce]
            refine ⟨?_, ?_, ?_⟩
            · intro w hw
              simp at hw
            · intro _
              exact ⟨hcb, e0, by simp [hc1]⟩
            · intro e he
              simp at he
          · have hcb' : d.hasCallback = false := by
              revert hcb
              cases d.hasCallback <;> simp
            have hs : settle d st1 (StageRes.err e0)
                = (some (Except.error e0), d, st1) := by
              simp [settle, hcb']
            rw [hs]
            refine ⟨?_, ?_, ?_⟩
            · intro w hw
              simp at hw
            · intro h
              simp at h
            · intro e he
              have h2 : e0 = e := by simpa using he
              subst h2
              exact ⟨hcb', rfl, hc1⟩
      | error e0 =>
        simp only [liftAuth, stage3, stage5]
        by_cases hcb : d.hasCallback = true
        · rw [settle_cb_err _ _ _ hcb hce]
          refine ⟨?_, ?_, ?_⟩
          · intro w hw
            simp at hw
          · intro _
            exact ⟨hcb, e0, by simp [hcA]⟩
          · intro e he
            simp at he
        · have hcb' : d.hasCallback = false := by
            revert hcb
            cases d.hasCallback <;> simp
          have hs : settle d stA (StageRes.err e0)
              = (some (Except.error e0), d, stA) := by
            simp [settle, hcb']
          rw [hs]
          refine ⟨?_, ?_, ?_⟩
          · intro w hw
            simp at hw
          · intro h
            simp at h
          · intro e he
            have h2 : e0 = e := by simpa using he
            subst h2
            exact ⟨hcb', rfl, hcA⟩

/-- Complete outcome characterization of stages 4 and 5 entered on a
rejection: whether or not the rejection is requeued, a resolution always
carries an `executeRequest` output for the descriptor, a pending outcome
happens exactly by a callback absorbing the terminal error, and a
rejection leaves the callback log untouched and only happens without a
callback. -/
lemma stage45_err_outcomes (env : Env) (d : Descriptor) (stE : St) (e : Err)
    (hce : d.callbackExecuted = false) :
    (∀ v, (stage45 (fun d1 st2 => retryPassSpec env d1 st2) d
        (StageRes.err e, stE)).1 = some (Except.ok v) →
      ∃ stx, (executeRequest d stx env).1 = Except.ok v) ∧
    ((stage45 (fun d1 st2 => retryPassSpec env d1 st2) d
        (StageRes.err e, stE)).1 = none →
      d.hasCallback = true ∧
      ∃ e1, (stage45 (fun d1 st2 => retryPassSpec env d1 st2) d
        (StageRes.err e, stE)).2.2.cbLog = stE.cbLog ++ [Except.error e1]) ∧
    (∀ e1, (stage45 (fun d1 st2 => retryPassSpec env d1 st2) d
        (StageRes.err e, stE)).1 = some (Except.error e1) →
      d.hasCallback = false ∧
      (stage45 (fun d1 st2 => retryPassSpec env d1 st2) d
        (StageRes.err e, stE)).2.2.cbLog = stE.cbLog) := by
  simp only [stage45]
  by_cases hq : decideWhetherToRequeue e d = true
  · rw [if_pos hq]
    have hro := retryPassSpec_outcomes env { d with retry := true } stE hce
    rcases hR : retryPassSpec env { d with retry := true } stE with ⟨o, d1, st2⟩
    rw [hR] at hro
    obtain ⟨hro1, hro2, hro3⟩ := hro
    cases o with
    | none =>
      refine ⟨?_, ?_, ?_⟩
      · intro w hw
        have hw' : (none : Option (Except Err JSVal)) = some (Except.ok w) := hw
        exact Option.noConfusion hw'
      · intro _
        obtain ⟨hcb1, e1, hl⟩ := hro2 rfl
        have hcb : d.hasCallback = true := hcb1
        have hl' : st2.cbLog = stE.cbLog ++ [Except.error e1] := hl
        exact ⟨hcb, e1, hl'⟩
      · intro e2 he
        have he' : (none : Option (Except Err JSVal)) = some (Except.error e2) := he
        exact Option.noConfusion he'
    | some r =>
      cases r with
      | ok v =>
        refine ⟨?_, ?_, ?_⟩
        · intro w hw
          have hw' : (settle d1 st2 (StageRes.ok v)).1 = some (Except.ok w) := hw
          rw [settle_ok_fst] at hw'
          have h2 : v = w := by simpa using hw'
          subst h2
          obtain ⟨stx, hx⟩ := hro1 v rfl
          rw [executeRequest_retryFlag] at hx
          exact ⟨stx, hx⟩
        · intro h
          have h' : (settle d1 st2 (StageRes.ok v)).1 = none := h
          rw [settle_ok_fst] at h'
          exact Option.noConfusion h'
        · intro e2 he
          have he' : (settle d1 st2 (StageRes.ok v)).1 = some (Except.error e2) := he
          rw [settle_ok_fst] at he'
          simp at he'
      | error e1 =>
        obtain ⟨hcbF, hd1, hlog⟩ := hro3 e1 rfl
        have hcb : d.hasCallback = false := hcbF
        have hlog' : st2.cbLog = stE.cbLog := hlog
        have hd1' : d1 = { d with retry := true } := hd1
        subst hd1'
        have hs : settle { d with retry := true } st2 (StageRes.err e1)
            = (some (Except.error e1), { d with retry := true }, st2) := by
          simp [settle, hcb]
        refine ⟨?_, ?_, ?_⟩
        · intro w hw
          have hw' : (settle { d with retry := true } st2 (StageRes.err e1)).1
              = some (Except.ok w) := hw
          rw [hs] at hw'
          simp at hw'
        · intro h
          have h' : (settle { d with retry := true } st2 (StageRes.err e1)).1
              = none := h
          rw [hs] at h'
          simp at h'
        · intro e2 he
          have he' : (settle { d with retry := true } st2 (StageRes.err e1)).1
              = some (Except.error e2) := he
          rw [hs] at he'
          have h2 : e1 = e2 := by simpa using he'
          subst h2
          refine ⟨hcb, ?_⟩
          show (settle { d with retry := true } st2 (StageRes.err e1)).2.2.cbLog
            = stE.cbLog
          rw [hs]
          exact hlog'
  · rw [if_neg hq]
    by_cases hcb : d.hasCallback = true
    · rw [settle_cb_err _ _ _ hcb hce]
      refine ⟨?_, ?_, ?_⟩
      · intro w hw
        simp at hw
      · intro _
        exact ⟨hcb, e, by simp⟩
      · intro e1 he
        simp at he
    · have hcb' : d.hasCallback = false := by
        revert hcb
        cases d.hasCallback <;> simp
      have hs : settle d stE (StageRes.err e)
          = (some (Except.error e), d, stE) := by
        simp [settle, hcb']
      rw [hs]
      refine ⟨?_, ?_, ?_⟩
      · intro w hw
        simp at hw
      · intro h
        simp at h
      · intro e1 he
        have h2 : e = e1 := by simpa using he
        subst h2
        exact ⟨hcb', rfl⟩

/-! ## Claim theorems -/

/-- C4: for every request descriptor that carries a callback (fresh, so its
flags start false), the callback fires exactly once over the whole pipeline
run — the callback invocation log grows by exactly one entry, whichever
combination of authentication, execution, failure and retry re-submission
the run goes through, and the entry is the success call `(null, result)` or
the failure call `(error)` recorded by the settlement stage. -/
theorem claim_C4_callback_exactly_once (d : Descriptor) (st : St) (env : Env)
    (hr : d.retry = false) (hcb : d.hasCallback = true) (hce : d.callbackExecuted = false) :
    ((submit d st env).2.2.cbLog).length = st.cbLog.length + 1 := by
  rw [submit_eq env d st hr]
  unfold fullRunSpec
  by_cases hg : (jsTruthy st.token || d.path == "/oauth2/token") = true
  · rw [if_pos hg]
    rcases hex : executeRequest d st env with ⟨out, st1⟩
    have hpre := executeRequest_pres d st env
    rw [hex] at hpre
    have hc1 : st1.cbLog = st.cbLog := hpre.1
    cases out with
    | ok v =>
      simp only [stage3, hex, stage45, settle_cb_ok _ _ _ hcb hce]
      simp [hc1]
    | error e =>
      simp only [stage3, hex]
      rw [stage45_retry_cb env e d st1 hcb hce, hc1]
  · rw [if_neg hg]
    have hpres := authRunSpec_pres env { st with authNs := st.authNs + 1 }
    rcases hA : authRunSpec env { st with authNs := st.authNs + 1 } with ⟨o, dA, stA⟩
    rw [hA] at hpres
    have hcA : stA.cbLog = st.cbLog := hpres.2.1
    cases o with
    | none => exact absurd rfl hpres.1
    | some r =>
      cases r with
      | ok v0 =>
        simp only [liftAuth]
        rcases hex : executeRequest d stA env with ⟨out, st1⟩
        have hpre := executeRequest_pres d stA env
        rw [hex] at hpre
        have hc1 : st1.cbLog = stA.cbLog := hpre.1
        cases out with
        | ok v =>
          simp only [stage3, hex, stage45, settle_cb_ok _ _ _ hcb hce]
          simp [hc1, hcA]
        | error e =>
          simp only [stage3, hex]
          rw [stage45_retry_cb env e d st1 hcb hce, hc1, hcA]
      | error e =>
        simp only [liftAuth, stage3]
        rw [stage45_retry_cb env e d stA hcb hce, hcA]

/-- Witness for C4 at a concrete run: a callback-carrying descriptor whose
execution fails with status 500 fires its callback exactly once. -/
theorem claim_C4_witness :
    dJsonCb.retry = false ∧ dJsonCb.hasCallback = true ∧ dJsonCb.callbackExecuted = false ∧
    ((submit dJsonCb stT0 env500).2.2.cbLog).length = stT0.cbLog.length + 1 :=
  ⟨rfl, rfl, rfl, claim_C4_callback_exactly_once dJsonCb stT0 env500 rfl rfl rfl⟩

/-- C9: the stage 1 authentication gate succeeds exactly when a truthy
token is stored and the descriptor is not marked as a retry, or the
descriptor's path is the authentication endpoint `/oauth2/token`; in all
other cases it fails, signalling that the authenticate stage must run. -/
theorem claim_C9_gate_iff (tok : Option Json) (d : Descriptor) :
    checkAuthentication tok d = true ↔
      ((jsTruthy tok = true ∧ d.retry = false) ∨ d.path = "/oauth2/token") := by
  simp [checkAuthentication, Bool.or_eq_true, Bool.and_eq_true, Bool.not_eq_true']

/-- C10: when a response processed with the File handler fails the status
check, the settled outcome is the status error, yet the (trimmed) response
body is still written to the caller-supplied file path — the failure is
not atomic with respect to on-disk state, because `process` invokes the
`saveToFile` parser even after rejecting. -/
theorem claim_C10_file_written_despite_rejection (fp : String) (res : RawResp) (st : St)
    (h : statusAccepted res.statusCode = false) :
    runHandler (HandlerKind.file fp) res st =
      (Except.error (Err.httpStatus res.statusCode res.body),
       { st with fileWrites := st.fileWrites ++ [(fp, jsTrim res.body)] }) := by
  simp [runHandler, processFile, h]

/-- Witness for C10: a 500 response handled by the File handler settles
with the status error and still records the disk write. -/
theorem claim_C10_witness :
    statusAccepted 500 = false ∧
    runHandler (HandlerKind.file "out.csv") ⟨500, "data"⟩ stT0 =
      (Except.error (Err.httpStatus 500 "data"),
       { stT0 with fileWrites := stT0.fileWrites ++ [("out.csv", jsTrim "data")] }) :=
  ⟨by decide, claim_C10_file_written_despite_rejection "out.csv" ⟨500, "data"⟩ stT0 (by decide)⟩

/-- Counterexample to C1 as stated: 299 lies in 200–299, yet the JSON
handler rejects a status-299 response — the `/20[0-9]/` regex search only
matches `20` followed by a digit. -/
theorem claim_C1_counterexample :
    (200 ≤ 299 ∧ 299 ≤ 299) ∧ statusAccepted 299 = false ∧
    processJSON ⟨299, "null"⟩ = Except.error (Err.httpStatus 299 "null") :=
  ⟨by decide, by decide, rfl⟩

set_option maxRecDepth 4000 in
/-- C1 amended: the handlers accept exactly the statuses whose decimal
rendering contains `20` followed by a digit; among three-digit statuses
that is 200–209 (so 200 and 204 are accepted while 299, 300, 401 and 500
are rejected), and every rejected status yields the terminal error
carrying the status code and raw body — for `process` (JSON and Raw
handlers) and for the File handler alike. -/
theorem claim_C1_amended (status : Nat) (body : String) (fp : String) (st : St)
    (p : String → Except Err JSVal) (hlt : status < 1000) :
    (statusAccepted status = true ↔ 200 ≤ status ∧ status ≤ 209) ∧
    (statusAccepted status = false →
      process ⟨status, body⟩ p = Except.error (Err.httpStatus status body) ∧
      (runHandler (HandlerKind.file fp) ⟨status, body⟩ st).1
        = Except.error (Err.httpStatus status body)) := by
  constructor
  · have hb : ∀ s, s < 1000 → (statusAccepted s = true ↔ 200 ≤ s ∧ s ≤ 209) := by decide
    exact hb status hlt
  · intro h
    exact ⟨by simp [process, h], by simp [runHandler, processFile, h]⟩

/-- Witness for the amended C1 at status 300. -/
theorem claim_C1_witness :
    (300 : Nat) < 1000 ∧
    ((statusAccepted 300 = true ↔ 200 ≤ 300 ∧ 300 ≤ 209) ∧
     (statusAccepted 300 = false →
       process ⟨300, "b"⟩ parseJSON = Except.error (Err.httpStatus 300 "b") ∧
       (runHandler (HandlerKind.file "f") ⟨300, "b"⟩ stT0).1
         = Except.error (Err.httpStatus 300 "b"))) :=
  ⟨by decide, claim_C1_amended 300 "b" "f" stT0 parseJSON (by decide)⟩

/-- Counterexample to C2 as stated: a token-exchange response with status
500 whose JSON body `true` lacks the token field does not fail — it
resolves with `undefined` — and it overwrites the token store (from the
stored `T0` to `undefined`). -/
theorem claim_C2_counterexample :
    runHandler HandlerKind.auth ⟨500, "true"⟩ stT0
      = (Except.ok JSVal.undef, { stT0 with token := none }) ∧
    (Except.ok JSVal.undef ≠ (Except.error Err.authErr : Except Err JSVal)) ∧
    ((none : Option Json) ≠ stT0.token) :=
  ⟨rfl, fun h => Except.noConfusion h, fun h => Option.noConfusion h⟩

/-- C2 amended: `processAuth` never consults the status code; it fails
with the authentication error exactly when the body is not parseable JSON
or parses to `null` (the property access throws), and only then is the
Token Store left unchanged.  Any parseable non-null body — whatever the
status code — succeeds and overwrites the Token Store with the value of
the (possibly absent) `access_token` field. -/
theorem claim_C2_amended (body : String) (tok : Option Json) :
    ((∃ e, (processAuth body tok).1 = Except.error e) ↔
      (jsonParse body = none ∨ jsonParse body = some Json.null)) ∧
    ((jsonParse body = none ∨ jsonParse body = some Json.null) →
      processAuth body tok = (Except.error Err.authErr, tok)) ∧
    (∀ v, jsonParse body = some v → v ≠ Json.null →
      processAuth body tok = (Except.ok (jsvalOfToken (jsGetField v "access_token")),
        jsGetField v "access_token")) := by
  unfold processAuth
  cases hj : jsonParse body with
  | none => simp
  | some v =>
    cases v with
    | null => simp
    | bool b => simp
    | num n => simp
    | str s => simp
    | arr l => simp
    | obj l => simp

/-- Witness for the amended C2 at the body `true` with stored token `T0`. -/
theorem claim_C2_witness :
    ((∃ e, (processAuth "true" (some (Json.str "T0"))).1 = Except.error e) ↔
      (jsonParse "true" = none ∨ jsonParse "true" = some Json.null)) ∧
    ((jsonParse "true" = none ∨ jsonParse "true" = some Json.null) →
      processAuth "true" (some (Json.str "T0"))
        = (Except.error Err.authErr, some (Json.str "T0"))) ∧
    (∀ v, jsonParse "true" = some v → v ≠ Json.null →
      processAuth "true" (some (Json.str "T0"))
        = (Except.ok (jsvalOfToken (jsGetField v "access_token")),
           jsGetField v "access_token")) :=
  claim_C2_amended "true" (some (Json.str "T0"))

/-- C8: for every accepted response processed by the JSON handler, an
empty (after trimming) body yields boolean `true`, not an error; and a
well-formed JSON body — the serialization of a well-formed value — yields
the parsed structure, round-trip stable: parsing the serialization of the
result gives the same result. -/
theorem claim_C8_json_handler_roundtrip (status : Nat) (body : String) (v : Json)
    (hs : statusAccepted status = true) :
    (jsTrim body = "" → processJSON ⟨status, body⟩ = Except.ok (JSVal.jval (Json.bool true))) ∧
    (jsonWF v = true →
      processJSON ⟨status, stringify v⟩ = Except.ok (JSVal.jval v) ∧
      jsonParse (stringify v) = some v) := by
  constructor
  · intro he
    simp [processJSON, process, hs, he, parseJSON]
  · intro hwf
    have hr := jsonParse_stringify v hwf
    refine ⟨?_, hr⟩
    simp only [processJSON, process, hs, if_true, jsTrim_stringify]
    simp [parseJSON, stringify_ne_empty, hr]

/-- Witness for C8 at status 200, a whitespace body and a sample value. -/
theorem claim_C8_witness :
    statusAccepted 200 = true ∧ jsTrim "  " = "" ∧ jsonWF sampleJson = true ∧
    processJSON ⟨200, "  "⟩ = Except.ok (JSVal.jval (Json.bool true)) ∧
    processJSON ⟨200, stringify sampleJson⟩ = Except.ok (JSVal.jval sampleJson) ∧
    jsonParse (stringify sampleJson) = some sampleJson :=
  ⟨by decide, rfl, rfl,
   (claim_C8_json_handler_roundtrip 200 "  " sampleJson (by decide)).1 rfl,
   ((claim_C8_json_handler_roundtrip 200 "  " sampleJson (by decide)).2 rfl).1,
   ((claim_C8_json_handler_roundtrip 200 "  " sampleJson (by decide)).2 rfl).2⟩

lemma executeRequest_reject (d : Descriptor) (st : St) (env : Env) (s : Nat) (b : String)
    (htr : env.transport st.execs.length = Except.ok ⟨s, b⟩)
    (hna : d.handler ≠ HandlerKind.auth)
    (hst : statusAccepted s = false) :
    ∃ st1, executeRequest d st env = (Except.error (Err.httpStatus s b), st1) ∧
      st1.token = st.token ∧ st1.authNs = st.authNs ∧
      st1.execs = st.execs ++ [d.path] ∧ st1.cbLog = st.cbLog := by
  unfold executeRequest
  rw [htr]
  cases hh : d.handler with
  | auth => exact absurd hh hna
  | json =>
    exact ⟨{ st with execs := st.execs ++ [d.path] },
      by simp [runHandler, processJSON, process, hst], rfl, rfl, rfl, rfl⟩
  | raw =>
    exact ⟨{ st with execs := st.execs ++ [d.path] },
      by simp [runHandler, processResponse, process, hst], rfl, rfl, rfl, rfl⟩
  | file fp =>
    refine ⟨{ st with execs := st.execs ++ [d.path], fileWrites := st.fileWrites ++ [(fp, jsTrim b)] }, ?_, rfl, rfl, rfl, rfl⟩
    simp [runHandler, processFile, hst]

lemma executeRequest_authDesc (env : Env) (st : St) (resp : RawResp) (dA : Descriptor)
    (hh : dA.handler = HandlerKind.auth) (hp : dA.path = "/oauth2/token")
    (htr : env.transport st.execs.length = Except.ok resp)
    (out : Except Err JSVal) (tk : Option Json)
    (hA : processAuth resp.body st.token = (out, tk)) :
    ∃ st1, executeRequest dA st env = (out, st1) ∧
      st1.token = tk ∧ st1.authNs = st.authNs ∧
      st1.execs = st.execs ++ ["/oauth2/token"] ∧ st1.cbLog = st.cbLog := by
  unfold executeRequest
  rw [htr, hh]
  have hA1 : processAuth resp.body ({ st with execs := st.execs ++ [dA.path] } : St).token
      = (out, tk) := hA
  refine ⟨{ st with execs := st.execs ++ [dA.path], token := tk },
    by simp [runHandler, hA1], rfl, rfl, by rw [hp], rfl⟩

lemma retryPassSpec_reauth_reject (env : Env) (d : Descriptor) (st1 : St)
    (authB b2 : String) (s2 : Nat) (av : JSVal) (tk : Option Json)
    (hp : (d.path == "/oauth2/token") = false)
    (hna : d.handler ≠ HandlerKind.auth)
    (hcb : d.hasCallback = false)
    (h1 : env.transport st1.execs.length = Except.ok ⟨200, authB⟩)
    (hA : processAuth authB st1.token = (Except.ok av, tk))
    (h2 : env.transport (st1.execs.length + 1) = Except.ok ⟨s2, b2⟩)
    (hs2 : statusAccepted s2 = false) :
    (retryPassSpec env d st1).1 = some (Except.error (Err.httpStatus s2 b2)) ∧
    (retryPassSpec env d st1).2.1 = d ∧
    (retryPassSpec env d st1).2.2.authNs = st1.authNs + 1 ∧
    (retryPassSpec env d st1).2.2.execs = st1.execs ++ ["/oauth2/token", d.path] ∧
    (retryPassSpec env d st1).2.2.token = tk ∧
    (retryPassSpec env d st1).2.2.cbLog = st1.cbLog := by
  unfold retryPassSpec
  rw [if_neg (by simp [hp])]
  rw [authRunSpec_eq]
  have htr1 : env.transport ({ st1 with authNs := st1.authNs + 1 } : St).execs.length
      = Except.ok ⟨200, authB⟩ := h1
  have hA1 : processAuth authB ({ st1 with authNs := st1.authNs + 1 } : St).token
      = (Except.ok av, tk) := hA
  obtain ⟨stA, hexA, hTA, hNA, hEA, hLA⟩ :=
    executeRequest_authDesc env { st1 with authNs := st1.authNs + 1 } ⟨200, authB⟩
      (authDescriptor env) rfl rfl htr1 _ _ hA1
  rw [hexA]
  simp only [liftAuth]
  have htr2 : env.transport stA.execs.length = Except.ok ⟨s2, b2⟩ := by
    rw [hEA]
    simpa using h2
  obtain ⟨stF, hex2, hTF, hNF, hEF, hLF⟩ := executeRequest_reject d stA env s2 b2 htr2 hna hs2
  simp only [stage3, hex2, stage5, settle_noCb _ _ _ hcb]
  refine ⟨trivial, trivial, ?_, ?_, ?_, ?_⟩
  · rw [hNF, hNA]
  · rw [hEF, hEA]
    simp
  · rw [hTF, hTA]
  · rw [hLF, hLA]

/-- C3: for a fresh descriptor executed with a stored token, a first 401
failure triggers exactly one re-authentication and exactly one
re-execution (the transport trace is the failed call, the token exchange,
and the replay — nothing more), the retry flag ends `true` after its
single false-to-true transition, and a second 401 on the replay is
terminal: the pipeline rejects with it and no further submission
occurs. -/
theorem claim_C3_retry_at_most_once (d : Descriptor) (st : St) (env : Env)
    (b0 authB b2 : String) (av : JSVal) (tk : Option Json)
    (hr : d.retry = false)
    (hp : (d.path == "/oauth2/token") = false)
    (hna : d.handler ≠ HandlerKind.auth)
    (hcb : d.hasCallback = false)
    (ht : jsTruthy st.token = true)
    (h0 : env.transport st.execs.length = Except.ok ⟨401, b0⟩)
    (h1 : env.transport (st.execs.length + 1) = Except.ok ⟨200, authB⟩)
    (hA : processAuth authB st.token = (Except.ok av, tk))
    (h2 : env.transport (st.execs.length + 2) = Except.ok ⟨401, b2⟩) :
    (submit d st env).1 = some (Except.error (Err.httpStatus 401 b2)) ∧
    (submit d st env).2.1.retry = true ∧
    (submit d st env).2.2.authNs = st.authNs + 1 ∧
    (submit d st env).2.2.execs = st.execs ++ [d.path, "/oauth2/token", d.path] := by
  rw [submit_eq env d st hr]
  unfold fullRunSpec
  rw [if_pos (by simp [ht])]
  obtain ⟨st1, hex1, hT1, hN1, hE1, hL1⟩ :=
    executeRequest_reject d st env 401 b0 h0 hna (by decide)
  simp only [stage3, hex1]
  have hq : decideWhetherToRequeue (Err.httpStatus 401 b0) d = true := by
    simp [decideWhetherToRequeue, hr, contains401_httpStatus401]
  simp only [stage45, hq, if_true]
  have hrp := retryPassSpec_reauth_reject env { d with retry := true } st1 authB b2 401 av tk
    hp hna hcb
    (by rw [hE1]; simpa using h1)
    (by rw [hT1]; exact hA)
    (by rw [hE1]; simpa using h2)
    (by decide)
  rcases hR : retryPassSpec env { d with retry := true } st1 with ⟨o, d1, st2⟩
  rw [hR] at hrp
  obtain ⟨ho, hd1, hN2, hE2, hT2, hL2⟩ := hrp
  have ho' : o = some (Except.error (Err.httpStatus 401 b2)) := ho
  have hd1' : d1 = { d with retry := true } := hd1
  subst ho' hd1'
  simp only [settle_noCb _ _ _ (show ({ d with retry := true } : Descriptor).hasCallback = false
    from hcb)]
  refine ⟨trivial, trivial, ?_, ?_⟩
  · have h3 : st2.authNs = st1.authNs + 1 := hN2
    rw [h3, hN1]
  · have h4 : st2.execs = st1.execs ++ ["/oauth2/token", d.path] := hE2
    rw [h4, hE1]
    simp

/-- Witness for C3 at a concrete run: stale token `T0`, a 401, one
re-authentication storing `T1`, and a second 401 on the replay. -/
theorem claim_C3_witness :
    dJson.retry = false ∧ jsTruthy stT0.token = true ∧
    processAuth authOkBody stT0.token
      = (Except.ok (JSVal.jval (Json.str "T1")), some (Json.str "T1")) ∧
    (submit dJson stT0 env401Twice).1 = some (Except.error (Err.httpStatus 401 "y")) ∧
    (submit dJson stT0 env401Twice).2.1.retry = true ∧
    (submit dJson stT0 env401Twice).2.2.authNs = stT0.authNs + 1 ∧
    (submit dJson stT0 env401Twice).2.2.execs
      = stT0.execs ++ [dJson.path, "/oauth2/token", dJson.path] := by
  have h := claim_C3_retry_at_most_once dJson stT0 env401Twice "x" authOkBody "y"
    (JSVal.jval (Json.str "T1")) (some (Json.str "T1"))
    rfl rfl (fun hcon => HandlerKind.noConfusion hcon) rfl rfl rfl rfl rfl rfl
  exact ⟨rfl, rfl, rfl, h.1, h.2.1, h.2.2.1, h.2.2.2⟩

set_option maxRecDepth 8000 in
/-- Counterexample to C5 as stated: when a callback is supplied and the
call fails (status 500), the callback receives the error but the
promise-equivalent never settles — `rejectRequest`'s `else` branch skips
`reject` once the callback has fired. -/
theorem claim_C5_counterexample :
    dJsonCb.hasCallback = true ∧
    (submit dJsonCb stT0 env500).1 = none ∧
    (submit dJsonCb stT0 env500).2.2.cbLog = [Except.error (Err.httpStatus 500 "boom")] := by
  refine ⟨rfl, ?_, ?_⟩ <;> rfl

/-- C5 amended: for every environment and every fresh descriptor, the
promise-equivalent can only resolve with a response-handler output
(an `Except.ok` result of `executeRequest` for the descriptor) — and in
particular a successful execution under a stored token resolves with
exactly that handler output, with or without a callback; on a terminal
failure with an unfired callback the callback receives the error and the
promise-equivalent is left unsettled forever, and a rejection with the
final error occurs only when no callback is pending, leaving the callback
log untouched. -/
theorem claim_C5_amended (d : Descriptor) (st : St) (env : Env)
    (hr : d.retry = false) (hce : d.callbackExecuted = false) :
    (∀ v st1, executeRequest d st env = (Except.ok v, st1) →
      jsTruthy st.token = true → (submit d st env).1 = some (Except.ok v)) ∧
    (∀ v, (submit d st env).1 = some (Except.ok v) →
      ∃ stx, (executeRequest d stx env).1 = Except.ok v) ∧
    ((submit d st env).1 = none →
      d.hasCallback = true ∧
      ∃ e, (submit d st env).2.2.cbLog = st.cbLog ++ [Except.error e]) ∧
    (∀ e, (submit d st env).1 = some (Except.error e) →
      d.hasCallback = false ∧ (submit d st env).2.2.cbLog = st.cbLog) := by
  rw [submit_eq env d st hr]
  unfold fullRunSpec
  by_cases hg : (jsTruthy st.token || d.path == "/oauth2/token") = true
  · rw [if_pos hg]
    rcases hex : executeRequest d st env with ⟨out, st1⟩
    have hpre := executeRequest_pres d st env
    rw [hex] at hpre
    have hc1 : st1.cbLog = st.cbLog := hpre.1
    cases out with
    | ok v =>
      simp only [stage3, hex, stage45]
      rw [settle_ok_fst]
      refine ⟨?_, ?_, ?_, ?_⟩
      · intro v0 st1' hv0 _
        have h2 : v = v0 := by
          have h3 := congrArg Prod.fst hv0
          simpa using h3
        subst h2
        rfl
      · intro w hw
        have h2 : v = w := by simpa using hw
        subst h2
        exact ⟨st, by rw [hex]⟩
      · intro h
        exact Option.noConfusion h
      · intro e he
        simp at he
    | error e =>
      simp only [stage3, hex]
      have hso := stage45_err_outcomes env d st1 e hce
      refine ⟨?_, hso.1, ?_, ?_⟩
      · intro v0 st1' hv0 _
        have h3 := congrArg Prod.fst hv0
        simp at h3
      · intro h
        obtain ⟨hcb, e1, hl⟩ := hso.2.1 h
        exact ⟨hcb, e1, by rw [hl, hc1]⟩
      · intro e1 h
        obtain ⟨hcb, hl⟩ := hso.2.2 e1 h
        exact ⟨hcb, by rw [hl, hc1]⟩
  · rw [if_neg hg]
    have htokF : jsTruthy st.token = false := by
      revert hg
      cases jsTruthy st.token <;> simp
    have hpres := authRunSpec_pres env { st with authNs := st.authNs + 1 }
    rcases hA : authRunSpec env { st with authNs := st.authNs + 1 } with ⟨o, dA, stA⟩
    rw [hA] at hpres
    have hcA : stA.cbLog = st.cbLog := hpres.2.1
    cases o with
    | none => exact absurd rfl hpres.1
    | some r =>
      cases r with
      | ok v0 =>
        simp only [liftAuth]
        rcases hex : executeRequest d stA env with ⟨out, st1⟩
        have hpre := executeRequest_pres d stA env
        rw [hex] at hpre
        have hc1 : st1.cbLog = st.cbLog := by rw [hpre.1, hcA]
        cases out with
        | ok v =>
          simp only [stage3, hex, stage45]
          rw [settle_ok_fst]
          refine ⟨?_, ?_, ?_, ?_⟩
          · intro v1 st1' _ htok
            exact absurd htok (by simp [htokF])
          · intro w hw
            have h2 : v = w := by simpa using hw
            subst h2
            exact ⟨stA, by rw [hex]⟩
          · intro h
            exact Option.noConfusion h
          · intro e he
            simp at he
        | error e =>
          simp only [stage3, hex]
          have hso := stage45_err_outcomes env d st1 e hce
          refine ⟨?_, hso.1, ?_, ?_⟩
          · intro v1 st1' _ htok
            exact absurd htok (by simp [htokF])
          · intro h
            obtain ⟨hcb, e1, hl⟩ := hso.2.1 h
            exact ⟨hcb, e1, by rw [hl, hc1]⟩
          · intro e1 h
            obtain ⟨hcb, hl⟩ := hso.2.2 e1 h
            exact ⟨hcb, by rw [hl, hc1]⟩
      | error e =>
        simp only [liftAuth, stage3]
        have hso := stage45_err_outcomes env d stA e hce
        refine ⟨?_, hso.1, ?_, ?_⟩
        · intro v1 st1' _ htok
          exact absurd htok (by simp [htokF])
        · intro h
          obtain ⟨hcb, e1, hl⟩ := hso.2.1 h
          exact ⟨hcb, e1, by rw [hl, hcA]⟩
        · intro e1 h
          obtain ⟨hcb, hl⟩ := hso.2.2 e1 h
          exact ⟨hcb, by rw [hl, hcA]⟩

/-- Witness for the amended C5: a callback-carrying descriptor in the
always-500 environment instantiates the settlement characterization — any
resolution would carry a handler output, a pending outcome means the
callback absorbed the error, and a rejection would require the absence of
a callback. -/
theorem claim_C5_witness :
    dJsonCb.retry = false ∧ dJsonCb.callbackExecuted = false ∧
    ((∀ v st1, executeRequest dJsonCb stT0 env500 = (Except.ok v, st1) →
        jsTruthy stT0.token = true →
        (submit dJsonCb stT0 env500).1 = some (Except.ok v)) ∧
     (∀ v, (submit dJsonCb stT0 env500).1 = some (Except.ok v) →
        ∃ stx, (executeRequest dJsonCb stx env500).1 = Except.ok v) ∧
     ((submit dJsonCb stT0 env500).1 = none →
        dJsonCb.hasCallback = true ∧
        ∃ e, (submit dJsonCb stT0 env500).2.2.cbLog
          = stT0.cbLog ++ [Except.error e]) ∧
     (∀ e, (submit dJsonCb stT0 env500).1 = some (Except.error e) →
        dJsonCb.hasCallback = false ∧
        (submit dJsonCb stT0 env500).2.2.cbLog = stT0.cbLog)) :=
  ⟨rfl, rfl, claim_C5_amended dJsonCb stT0 env500 rfl rfl⟩

set_option maxRecDepth 8000 in
/-- C6 at its failing input: a status-500 failure whose body happens to
contain the digits 401 is requeued — `decideWhetherToRequeue` matches the
substring `401` anywhere in the stringified error, so the pipeline
re-authenticates and re-executes a request the claim says is never
retried (three transport calls instead of one). -/
theorem claim_C6_substring_retry_on_500 :
    statusAccepted 500 = false ∧
    decideWhetherToRequeue (Err.httpStatus 500 "x 401 x") dJson = true ∧
    (submit dJson stT0 env500With401Body).1 = some (Except.ok (JSVal.jval (Json.bool true))) ∧
    (submit dJson stT0 env500With401Body).2.2.execs
      = ["/accounts", "/oauth2/token", "/accounts"] ∧
    (submit dJson stT0 env500With401Body).2.2.authNs = 1 := by
  refine ⟨by decide, by decide, ?_, ?_, ?_⟩ <;> rfl

set_option maxRecDepth 8000 in
/-- C7 at its failing input: an authentication-stage failure is not
always terminal — when the token exchange fails with a transport error
whose text contains `401`, the pipeline performs a retry re-submission and
enters the authenticate stage a second time (four transport calls to the
token endpoint in all), contradicting the claim that stage 2 failures
propagate without any retry. -/
theorem claim_C7_auth_failure_retried_when_text_contains_401 :
    jsTruthy stFresh.token = false ∧
    contains401 (Err.transportErr "connect ETIMEDOUT 0.0.0.0:401") = true ∧
    (submit dJson stFresh envConnRefused401).2.2.authNs = 2 ∧
    (submit dJson stFresh envConnRefused401).2.2.execs
      = ["/oauth2/token", "/oauth2/token", "/oauth2/token", "/oauth2/token"] ∧
    (submit dJson stFresh envConnRefused401).1
      = some (Except.error (Err.transportErr "connect ETIMEDOUT 0.0.0.0:401")) := by
  refine ⟨by decide, by decide, ?_, ?_, ?_⟩ <;> rfl
